import Mathlib

/-!
# Verification of the explainshell command-line parser

A shallow embedding of `explainshell/parser.py`: the token classifier
(`next_token`), the control-run splitter (`get_valid_controls`), the
recursive-descent parser (`parse_list`, `parse_pipeline`, `parse_command`,
`parse_simple_command`, `parse_redirections`, `parse_command_part`), the
tokenizer driver (`tokenize_command_line`), the parse entry point
(`parse_command_line`) and the structural printer (`dump`).

The raw lexer `shell_shlex` (module `explainshell.shlext`) is not part of the
sources being verified; it is modelled from the specification (see
`getToken` below).  Everything else is translated directly from
`explainshell/parser.py`.
-/

namespace Explainshell

/-! ## Character classes

Modelled from the spec: the lexer's whitespace, quote and control character
alphabets (`shell_shlex` is not in the verified sources).  The control set
contains every character the parser's grammar treats as an operator or
grouping token; control runs are split by `get_valid_controls`, which emits
characters outside `>`, `&`, `|` as single-character tokens. -/

def isWs (c : Char) : Bool :=
  c == ' ' || c == '\t' || c == '\r' || c == '\n'

def isQuote (c : Char) : Bool :=
  c == '\'' || c == '"'

def isCtrl (c : Char) : Bool :=
  c == '(' || c == ')' || c == ';' || c == '<' || c == '>' ||
  c == '|' || c == '&' || c == '{' || c == '}' || c == '!'

/-! ## Python `int()` on strings

`next_token` classifies a plain run as a `number` when Python's `int()`
accepts its text; `parse_redirections` applies `int()` to the preceding
word for fd inference.  Python 2 `int()` accepts optional surrounding
whitespace, an optional single sign, and one or more decimal digits. -/

def isDigit (c : Char) : Bool := '0' ≤ c && c ≤ '9'

def digitsVal (l : List Char) : Nat :=
  l.foldl (fun a c => 10 * a + (c.toNat - '0'.toNat)) 0

def pyIntCore (l : List Char) : Option Int :=
  match l with
  | '+' :: rest =>
      if rest ≠ [] && rest.all isDigit then some (digitsVal rest) else none
  | '-' :: rest =>
      if rest ≠ [] && rest.all isDigit then some (-(digitsVal rest : Int)) else none
  | rest =>
      if rest ≠ [] && rest.all isDigit then some (digitsVal rest) else none

def pyInt (l : List Char) : Option Int :=
  pyIntCore ((l.dropWhile isWs).reverse.dropWhile isWs).reverse

/-! ## The control-run splitter

Translated from `CommandLineParser.get_valid_controls` (parser.py
lines 186-208) and the class constant `permitted_tokens` (line 124). -/

def permitted_tokens : List (List Char) :=
  [['&', '&'], ['|', '|'], ['|', '&'], ['>', '>']]

def isSplitChar (c : Char) : Bool :=
  c == '>' || c == '&' || c == '|'

/-- The body of the `for c in t` loop of `get_valid_controls`, with the
pending `last` character as an accumulator; the final `if last:
result.append(last)` is the `[]` case. -/
def gvcLoop : Option Char → List Char → List (List Char)
  | some l, [] => [[l]]
  | none, [] => []
  | some l, c :: rest =>
      if [l, c] ∈ permitted_tokens then [l, c] :: gvcLoop none rest
      else [l] :: [c] :: gvcLoop none rest
  | none, c :: rest =>
      if isSplitChar c then gvcLoop (some c) rest
      else [c] :: gvcLoop none rest

def get_valid_controls (t : List Char) : List (List Char) :=
  if t.length = 1 then [t] else gvcLoop none t

/-- The splitting rule exactly as the claim states it: scan left to right
pairing adjacent characters; a pair becomes one token exactly when it is
a permitted compound operator, otherwise both characters are emitted
singly; a trailing unpaired character is emitted singly.  (Stated from the
spec's words, for comparison with `get_valid_controls`.) -/
def pairSpec : List Char → List (List Char)
  | [] => []
  | [c] => [[c]]
  | a :: b :: rest =>
      if [a, b] ∈ permitted_tokens then [a, b] :: pairSpec rest
      else [a] :: [b] :: pairSpec rest

example : get_valid_controls ">>>".data = [['>', '>'], ['>']] := by decide
example : get_valid_controls ">&".data = [['>'], ['&']] := by decide
example : get_valid_controls "&&)".data = [['&', '&'], [')']] := by decide
example : pyInt "2".data = some 2 := by decide
example : pyInt "+2".data = some 2 := by decide
example : pyInt "a2".data = none := by decide

/-! ## Raw lexer state

Modelled from the spec: `shell_shlex` (module `explainshell.shlext`) is not
among the verified sources.  Per spec section 4.1 the lexer produces raw
tokens of three kinds — quoted string (token type `"` or `'`), plain run
(`a`) and control run (`c`) — tracks the whitespace run preceding the
current token (`preceding`), supports multi-token pushback (`pbtokens`,
fed by the classifier's control-run splitter) and records, via `pbchars`,
the control character that terminated a plain run.  The `posix` flag only
affects escape/quote-stripping rules and is carried without influencing
this model. -/

structure LexState where
  src : List Char
  pos : Nat
  pbtokens : List (List Char)
  preceding : String
  pbchars : List Char
  ttype : Char
  posix : Bool
  deriving Repr, DecidableEq

/-- Modelled from the spec: `shell_shlex.get_token`.  Pushed-back tokens are
returned first (leaving `preceding` and the token type stale, as the
classifier's comment notes); otherwise whitespace is skipped (recorded as
`preceding`) and a quoted string, control run or plain run is scanned.  A
quote with no closing quote raises the lexical error
`No closing quotation`.  A plain run extends over every character that is
not whitespace and not a control character (non-posix `shlex` keeps quote
characters appearing inside a word); a control character terminating it is
recorded in `pbchars`. -/
def getToken (lx : LexState) : Except String (Option (List Char) × LexState) :=
  match lx.pbtokens with
  | tk :: rest => .ok (some tk, { lx with pbtokens := rest })
  | [] =>
    let ws := (lx.src.drop lx.pos).takeWhile isWs
    let p := lx.pos + ws.length
    match (lx.src.drop lx.pos).dropWhile isWs with
    | [] => .ok (none, { lx with pos := p, preceding := ⟨ws⟩, pbchars := [] })
    | c :: tail =>
      if isQuote c then
        match tail.findIdx? (fun d => d == c) with
        | none => .error "No closing quotation"
        | some j =>
          .ok (some (c :: tail.take (j + 1)),
               { lx with pos := p + j + 2, preceding := ⟨ws⟩, pbchars := [], ttype := c })
      else if isCtrl c then
        let run := (c :: tail).takeWhile isCtrl
        .ok (some run,
             { lx with pos := p + run.length, preceding := ⟨ws⟩, pbchars := [], ttype := 'c' })
      else
        let run := (c :: tail).takeWhile (fun d => !isWs d && !isCtrl d)
        let p2 := p + run.length
        let pb := match lx.src[p2]? with
                  | some d => if isCtrl d then [d] else []
                  | none => []
        .ok (some run, { lx with pos := p2, preceding := ⟨ws⟩, pbchars := pb, ttype := 'a' })

/-! ## Classified tokens and the parser state -/

/-- The namedtuple `token(type, t, preceding, start, end)` (parser.py
line 116).  `type` is `none` for end-of-input, otherwise `"word"`,
`"number"` or the control operator's own text.  `t` is `none` for
end-of-input. -/
structure Tok where
  type : Option String
  t : Option String
  preceding : String
  start : Nat
  endp : Nat
  deriving Repr, DecidableEq

/-- A raised Python exception, with the offset the parser attaches
(`errors.ParsingError` carries a message and a position; uncaught
`AssertionError` / `AttributeError` / `IndexError` are modelled with the
offset of the token being examined). -/
structure Perr where
  msg : String
  pos : Nat
  deriving Repr, DecidableEq

structure PState where
  source : List Char
  lex : LexState
  lexpos : Nat
  tok : Option Tok
  peek : Option Tok
  deriving Repr, DecidableEq

def skipWsFrom (src : List Char) (i : Nat) : Nat :=
  i + ((src.drop i).takeWhile isWs).length

def extendNonWs (src : List Char) (i : Nat) : Nat :=
  i + ((src.drop i).takeWhile (fun c => !isWs c)).length

/-- Translated from `CommandLineParser.next_token` (parser.py
lines 136-184): fetch a raw token, classify it (strip quotes, detect
integers, split control runs pushing the remainder back), compute the end
offset (including the quote-adjacency rule and the trailing non-whitespace
extension, the latter suppressed when the lexer holds back a control
character), then skip trailing whitespace to set `lexpos`.  A lexer
`ValueError` becomes a `ParsingError` at `lexpos`; indexing `source` out of
range is Python's uncaught `IndexError`. -/
def nextToken (st : PState) : Except Perr (Tok × PState) :=
  match getToken st.lex with
  | .error e => .error ⟨e, st.lexpos⟩
  | .ok (none, lx) =>
      let r : Tok := ⟨none, none, lx.preceding, st.lexpos, st.lexpos⟩
      .ok (r, { st with lex := lx, lexpos := skipWsFrom st.source st.lexpos })
  | .ok (some t0, lx) =>
      let classified : Except Perr (Option String × List Char × Nat × Bool × LexState) :=
        if isQuote lx.ttype then
          .ok (some "word", (t0.drop 1).dropLast, st.lexpos + t0.length, true, lx)
        else if lx.ttype = 'a' then
          let endpos := st.lexpos + t0.length
          match st.source[st.lexpos]? with
          | none => .error ⟨"IndexError: string index out of range", st.lexpos⟩
          | some ch =>
            let endpos := if isQuote ch then endpos + 1 else endpos
            let tt := if (pyInt t0).isSome then "number" else "word"
            .ok (some tt, t0, endpos, true, lx)
        else
          -- control run (token type 'c', also stale on pushed-back tokens)
          let (t1, lx1) :=
            if t0.length > 1 then
              match get_valid_controls t0 with
              | [] => (t0, lx)
              | piece :: restPieces =>
                  (piece, { lx with pbtokens := restPieces ++ lx.pbtokens })
            else (t0, lx)
          .ok (some (⟨t1⟩ : String), t1, st.lexpos + t1.length, false, lx1)
      match classified with
      | .error e => .error e
      | .ok (tt, t1, endpos, advance, lx1) =>
        let endpos :=
          if advance && (lx1.pbchars.isEmpty || !isCtrl (lx1.pbchars.headD ' ')) then
            extendNonWs st.source endpos
          else endpos
        let r : Tok := ⟨tt, some ⟨t1⟩, lx1.preceding, st.lexpos, endpos⟩
        .ok (r, { st with lex := lx1, lexpos := skipWsFrom st.source endpos })

/-- `CommandLineParser.peek_token` (lines 210-213), returning the buffered
token itself (callers read its fields through `self.peek`). -/
def peekTok (st : PState) : Except Perr (Tok × PState) :=
  match st.peek with
  | some p => .ok (p, st)
  | none =>
    match nextToken st with
    | .error e => .error e
    | .ok (r, st') => .ok (r, { st' with peek := some r })

/-- `CommandLineParser.consume` (lines 215-223): shift `peek` into `token`,
fetch the next lookahead, then check the consumed token's type, raising
`consume: expected %r (got %s)` at the consumed token's start offset on a
mismatch (`EOF` standing for a `None` type). -/
def consume (tt : String) (st : PState) : Except Perr PState :=
  match st.peek with
  | none => .error ⟨"AttributeError: 'NoneType' object has no attribute 'type'", st.lexpos⟩
  | some tokenNow =>
    match nextToken st with
    | .error e => .error e
    | .ok (r, st') =>
      if tokenNow.type = some tt then
        .ok { st' with tok := some tokenNow, peek := some r }
      else
        let got := match tokenNow.type with
                   | none => "EOF"
                   | some s => s
        .error ⟨"consume: expected '" ++ tt ++ "' (got " ++ got ++ ")", tokenNow.start⟩

def initState (source : String) (posix : Bool) : PState :=
  { source := source.data
  , lex := { src := source.data, pos := 0, pbtokens := [], preceding := ""
           , pbchars := [], ttype := 'a', posix := posix }
  , lexpos := 0, tok := none, peek := none }

/-! ## The AST -/

/-- A redirection target: a filename word, or the `('&', n)` pair for
duplicate-to-fd. -/
inductive RTarget where
  | file (name : String)
  | dup (n : Int)
  deriving Repr, DecidableEq

/-- The closed set of AST node variants built by the parser (the Python
`Node` is an open attribute container; these are exactly the kinds it is
given).  Every node carries its `pos` span.  The compound node's inner
list attribute is called `inner` (Python calls it `list`, which collides
with the `list` constructor). -/
inductive Node where
  | word (w : String) (pos : Nat × Nat)
  | command (parts : List Node) (pos : Nat × Nat)
  | redirect (input : Int) (typ : String) (output : RTarget) (pos : Nat × Nat)
  | pipe (p : String) (pos : Nat × Nat)
  | negate (pos : Nat × Nat)
  | pipeline (parts : List Node) (pos : Nat × Nat)
  | operator (op : String) (pos : Nat × Nat)
  | list (parts : List Node) (pos : Nat × Nat)
  | compound (group : String) (inner : Node) (redirects : List Node) (pos : Nat × Nat)
  deriving Repr

def Node.pos : Node → Nat × Nat
  | .word _ p => p
  | .command _ p => p
  | .redirect _ _ _ p => p
  | .pipe _ p => p
  | .negate p => p
  | .pipeline _ p => p
  | .operator _ p => p
  | .list _ p => p
  | .compound _ _ _ p => p

/-- The `input` (fd) attribute of a redirect node. -/
def Node.redInput : Node → Int
  | .redirect i _ _ _ => i
  | _ => 0

def Node.isRedirect : Node → Bool
  | .redirect _ _ _ _ => true
  | _ => false

def Node.isWord : Node → Bool
  | .word _ _ => true
  | _ => false

/-- The span property exactly as claim C5 states it, checked at one node:
a node with children (`list`, `pipeline`, `command`, `compound`) starts at
its first child's start offset and ends at its last child's end offset
(a compound's children being its inner list followed by its redirects). -/
def nodeSpanClaim : Node → Bool
  | .command ps pos | .pipeline ps pos | .list ps pos =>
      (match ps with
       | [] => false
       | q :: qs => pos.1 = q.pos.1 && pos.2 = (qs.getLastD q).pos.2)
  | .compound _ inner rs pos =>
      pos.1 = inner.pos.1 && pos.2 = (rs.getLastD inner).pos.2
  | _ => true

/-- The span invariant the parser actually maintains, everywhere in the
tree: every `list`, `pipeline` and `command` node spans exactly from its
first child's start offset to its last child's end offset (compound nodes
are exempt: their spans include the group's brackets and any trailing
redirects). -/
inductive SpanInv : Node → Prop where
  | word (w : String) (p : Nat × Nat) : SpanInv (.word w p)
  | redirect (i : Int) (k : String) (o : RTarget) (p : Nat × Nat) : SpanInv (.redirect i k o p)
  | pipe (s : String) (p : Nat × Nat) : SpanInv (.pipe s p)
  | negate (p : Nat × Nat) : SpanInv (.negate p)
  | operator (o : String) (p : Nat × Nat) : SpanInv (.operator o p)
  | command (q : Node) (qs : List Node) :
      (∀ x ∈ q :: qs, SpanInv x) →
      SpanInv (.command (q :: qs) (q.pos.1, (qs.getLastD q).pos.2))
  | pipeline (q : Node) (qs : List Node) :
      (∀ x ∈ q :: qs, SpanInv x) →
      SpanInv (.pipeline (q :: qs) (q.pos.1, (qs.getLastD q).pos.2))
  | list (q : Node) (qs : List Node) :
      (∀ x ∈ q :: qs, SpanInv x) →
      SpanInv (.list (q :: qs) (q.pos.1, (qs.getLastD q).pos.2))
  | compound (g : String) (inner : Node) (rs : List Node) (p : Nat × Nat) :
      SpanInv inner → (∀ x ∈ rs, SpanInv x) →
      SpanInv (.compound g inner rs p)

/-! ## The recursive-descent parser

The mutually recursive parse methods are embedded as one fuel-indexed
interpreter `run` over a request tag, so that the kernel can evaluate it;
named wrappers below recover the individual methods.  Loop bodies
(`while` loops in `parse_list`, `parse_pipeline`, `parse_simple_command`,
`parse_redirections`) are the `…Loop` requests, carrying the accumulated
parts exactly as the Python locals do. -/

inductive Req where
  | list
  | listLoop (parts : List Node)
  | pipeline
  | pipelineLoop (parts : List Node)
  | command
  | simple
  | simpleLoop (parts : List Node)
  | part
  | reds (node : Option Node) (acc : List Node)
  deriving Repr

inductive Res where
  | node (n : Node)
  | parts (ps : List Node)
  | redsRes (ps : List Node) (used : Bool)
  deriving Repr

def expectNode : Res × PState → Except Perr (Node × PState)
  | (.node n, st) => .ok (n, st)
  | (_, _) => .error ⟨"internal: node expected", 0⟩

def expectParts : Res × PState → Except Perr (List Node × PState)
  | (.parts ps, st) => .ok (ps, st)
  | (_, _) => .error ⟨"internal: parts expected", 0⟩

def expectReds : Res × PState → Except Perr ((List Node × Bool) × PState)
  | (.redsRes ps u, st) => .ok ((ps, u), st)
  | (_, _) => .error ⟨"internal: redirections expected", 0⟩

/-- One iteration of the `while tt in ('>', '>>')` loop of
`parse_redirections` (parser.py lines 308-342).  Returns `(none, st)` when
the lookahead is not a redirection operator (loop exit); otherwise applies
the fd-inference rule (lines 309-324: default fd 1; when the operator has
no preceding whitespace, assert the pending `node` is a word and, when its
text is a positive integer, take it as the fd, start the redirect's span
at the word's start and drop the word), consumes the operator and the
target (`word`/`number` filename or `&` + `number`), and returns the
redirect node together with the surviving `node`. -/
def redsStep (node : Option Node) (st : PState) :
    Except Perr (Option (Node × Option Node) × PState) := do
  let (pk, st) ← peekTok st
  if pk.type = some ">" ∨ pk.type = some ">>" then do
    let redirectKind := if pk.type = some ">" then ">" else ">>"
    let (num, start, node2) ←
      (if pk.preceding = "" then
        match node with
        | none =>
            .error ⟨"AttributeError: 'NoneType' object has no attribute 'kind'", pk.start⟩
        | some (Node.word w wpos) =>
            match pyInt w.data with
            | some k =>
                if k > 0 then .ok ((k : Int), wpos.1, (none : Option Node))
                else .ok ((1 : Int), pk.start, node)
            | none => .ok ((1 : Int), pk.start, node)
        | some _ => .error ⟨"AssertionError", pk.start⟩
      else .ok ((1 : Int), pk.start, node) :
        Except Perr (Int × Nat × Option Node))
    let st ← consume redirectKind st
    let (tk2, st) ← peekTok st
    if tk2.type = some "word" ∨ tk2.type = some "number" then do
      let target := RTarget.file (tk2.t.getD "")
      let st ← consume (if tk2.type = some "word" then "word" else "number") st
      match st.tok with
      | none => .error ⟨"AttributeError: 'NoneType' object has no attribute 'end'", 0⟩
      | some last =>
        .ok (some (Node.redirect num redirectKind target (start, last.endp), node2), st)
    else if tk2.type = some "&" then do
      let st ← consume "&" st
      let (tk3, st) ← peekTok st
      if tk3.type = some "number" then do
        let n := (pyInt (tk3.t.getD "").data).getD 0
        let st ← consume "number" st
        match st.tok with
        | none => .error ⟨"AttributeError: 'NoneType' object has no attribute 'end'", 0⟩
        | some last =>
          .ok (some (Node.redirect num redirectKind (RTarget.dup n) (start, last.endp), node2), st)
      else .error ⟨"syntax: number expected after &", tk3.start⟩
    else .error ⟨"syntax: expecting filename or &", tk2.start⟩
  else .ok (none, st)

/-- The parser proper, translated from `parse_list`, `parse_pipeline`,
`parse_command`, `parse_simple_command`, `parse_redirections` and
`parse_command_part` (parser.py lines 229-356).  `fuel` only bounds the
recursion depth; every claim about the parser is conditioned on the run
not exhausting it (or instantiated with enough fuel). -/
def run : Nat → Req → PState → Except Perr (Res × PState)
  | 0, _, _ => .error ⟨"out of fuel", 0⟩
  | fuel + 1, req, st =>
    match req with
    | .list => do
        let (p, st) ← run fuel .pipeline st >>= expectNode
        let (ps, st) ← run fuel (.listLoop [p]) st >>= expectParts
        match ps with
        | [] => .error ⟨"IndexError: list index out of range", 0⟩
        | [q] => .ok (.node q, st)
        | q :: qs => .ok (.node (Node.list (q :: qs) (q.pos.1, (qs.getLastD q).pos.2)), st)
    | .listLoop parts => do
        let (opTok, st) ← peekTok st
        match opTok.type with
        | some op =>
          if op = ";" ∨ op = "&" ∨ op = "&&" ∨ op = "||" then do
            let st ← consume op st
            let (tk2, st) ← peekTok st
            match st.tok with
            | none => .error ⟨"AttributeError: 'NoneType' object has no attribute 'start'", 0⟩
            | some opT =>
              if tk2.type = some ")" ∨ tk2.type = some "\x7d" ∨
                 (tk2.type = none ∧ (op = ";" ∨ op = "&")) then
                .ok (.parts (parts ++ [Node.operator op (opT.start, opT.endp)]), st)
              else do
                let (part, st) ← run fuel .pipeline st >>= expectNode
                run fuel (.listLoop (parts ++ [Node.operator op (opT.start, opT.endp), part])) st
          else .ok (.parts parts, st)
        | none => .ok (.parts parts, st)
    | .pipeline => do
        let (tk, st) ← peekTok st
        let (parts, st) ←
          if tk.type = some "!" then do
            let st ← consume "!" st
            match st.tok with
            | none => .error ⟨"AttributeError: 'NoneType' object has no attribute 'start'", 0⟩
            | some nt => pure ([Node.negate (nt.start, nt.endp)], st)
          else pure ([], st)
        let (cmd, st) ← run fuel .command st >>= expectNode
        let (ps, st) ← run fuel (.pipelineLoop (parts ++ [cmd])) st >>= expectParts
        match ps with
        | [] => .error ⟨"IndexError: list index out of range", 0⟩
        | [q] => .ok (.node q, st)
        | q :: qs => .ok (.node (Node.pipeline (q :: qs) (q.pos.1, (qs.getLastD q).pos.2)), st)
    | .pipelineLoop parts => do
        let (tk, st) ← peekTok st
        if tk.type = some "|" ∨ tk.type = some "|&" then do
          let pt := if tk.type = some "|" then "|" else "|&"
          let st ← consume pt st
          match st.tok with
          | none => .error ⟨"AttributeError: 'NoneType' object has no attribute 'start'", 0⟩
          | some pT => do
            let (cmd, st) ← run fuel .command st >>= expectNode
            run fuel (.pipelineLoop (parts ++ [Node.pipe pt (pT.start, pT.endp), cmd])) st
        else .ok (.parts parts, st)
    | .command => do
        let (tk, st) ← peekTok st
        if tk.type = some "(" ∨ tk.type = some "\x7b" then do
          let grp := if tk.type = some "(" then "(" else "\x7b"
          let closer := if tk.type = some "(" then ")" else "\x7d"
          let st ← consume grp st
          let s := match st.tok with
                   | some t => t.start
                   | none => 0
          let (inner, st) ← run fuel .list st >>= expectNode
          let st ← consume closer st
          let e := match st.tok with
                   | some t => t.endp
                   | none => 0
          let node0 := Node.compound grp inner [] (s, e)
          let ((rs, _), st) ← run fuel (.reds (some node0) []) st >>= expectReds
          let pos2 := match rs.getLast? with
                      | some r => (s, r.pos.2)
                      | none => (s, e)
          .ok (.node (Node.compound grp inner rs pos2), st)
        else run fuel .simple st
    | .simple => do
        let (ps, st) ← run fuel .part st >>= expectParts
        let (ps, st) ← run fuel (.simpleLoop ps) st >>= expectParts
        match ps with
        | [] => .error ⟨"IndexError: list index out of range", 0⟩
        | q :: qs => .ok (.node (Node.command (q :: qs) (q.pos.1, (qs.getLastD q).pos.2)), st)
    | .simpleLoop parts => do
        let (tk, st) ← peekTok st
        if tk.type = some "word" ∨ tk.type = some "number" then do
          let (more, st) ← run fuel .part st >>= expectParts
          run fuel (.simpleLoop (parts ++ more)) st
        else .ok (.parts parts, st)
    | .part =>
        match st.peek with
        | none => .error ⟨"AttributeError: 'NoneType' object has no attribute 't'", st.lexpos⟩
        | some pk => do
          let node := Node.word (pk.t.getD "") (pk.start, pk.endp)
          let st ← consume (if pk.type = some "word" then "word" else "number") st
          let ((rs, used), st) ← run fuel (.reds (some node) []) st >>= expectReds
          .ok (.parts (if used then rs else node :: rs), st)
    | .reds node acc =>
        match redsStep node st with
        | .error e => .error e
        | .ok (none, st') => .ok (.redsRes acc node.isNone, st')
        | .ok (some (red, node2), st') => run fuel (.reds node2 (acc ++ [red])) st'

/-! Named wrappers for the individual parse methods. -/

def parseList (f : Nat) (st : PState) : Except Perr (Node × PState) :=
  run f .list st >>= expectNode

def parseListLoop (f : Nat) (st : PState) (parts : List Node) :
    Except Perr (List Node × PState) :=
  run f (.listLoop parts) st >>= expectParts

def parsePipeline (f : Nat) (st : PState) : Except Perr (Node × PState) :=
  run f .pipeline st >>= expectNode

def parseCommand (f : Nat) (st : PState) : Except Perr (Node × PState) :=
  run f .command st >>= expectNode

def parseSimpleCommand (f : Nat) (st : PState) : Except Perr (Node × PState) :=
  run f .simple st >>= expectNode

def parseCommandPart (f : Nat) (st : PState) : Except Perr (List Node × PState) :=
  run f .part st >>= expectParts

def parseRedirections (f : Nat) (st : PState) (node : Option Node) :
    Except Perr ((List Node × Bool) × PState) :=
  run f (.reds node []) st >>= expectReds

def parseRedirectionsLoop (f : Nat) (st : PState) (node : Option Node) (acc : List Node) :
    Except Perr ((List Node × Bool) × PState) :=
  run f (.reds node acc) st >>= expectReds

/-- `CommandLineParser.parse` (lines 225-227) followed by
`parse_command_line` (lines 370-388, without the `convertpos` pass):
prime the lookahead, then parse a list. -/
def parseCmd (f : Nat) (st : PState) : Except Perr (Node × PState) :=
  match peekTok st with
  | .error e => .error e
  | .ok (_, st) => parseList f st

def parseCommandLine (source : String) (posix : Bool) (fuel : Nat) : Except Perr Node :=
  (parseCmd fuel (initState source posix)).map (fun x => x.1)

/-! ## The tokenizer driver

`tokenize_command_line` (parser.py lines 358-368) repeatedly calls
`next_token` until the end-of-input token, collecting the tokens.  The
loop is embedded with a fuel bound; `lexMeasure` is the progress measure
of the lexer state, and `tokenize_total` (below, with the theorems) shows
the fuel `lexMeasure + 1` always suffices, so `tokenizeCommandLine` is the
loop run to completion. -/

def pbLen (l : List (List Char)) : Nat := l.foldr (fun t a => t.length + a) 0

def lexMeasure (lx : LexState) : Nat := 2 * (lx.src.length - lx.pos) + pbLen lx.pbtokens

def tokenizeFuel : Nat → PState → List Tok → Option (Except Perr (List Tok))
  | 0, _, _ => none
  | f + 1, st, acc =>
    match nextToken st with
    | .error e => some (.error e)
    | .ok (r, st') =>
      if r.t = none then some (.ok acc)
      else tokenizeFuel f st' (acc ++ [r])

def tokenizeCommandLine (source : String) (posix : Bool) : Except Perr (List Tok) :=
  match tokenizeFuel (lexMeasure (initState source posix).lex + 1) (initState source posix) [] with
  | some r => r
  | none => .error ⟨"out of fuel", 0⟩

/-! ## The structural printer `dump`

`dump` (parser.py lines 390-421) walks the node's `__dict__`.  To state
claims about it faithfully we embed the Python object layer: a node is its
attribute dictionary (an insertion-ordered association list), and
`d = node.__dict__` aliases that dictionary, so `d.pop('kind')` removes
the node's `kind` attribute in place.  `pyFormat` therefore returns both
the rendered text and the post-call state of the object. -/

inductive PyVal where
  | pstr (s : String)
  | pint (n : Int)
  | ppos (a b : Nat)
  | pdup (n : Int)
  | pnode (fields : List (String × PyVal))
  | plist (xs : List PyVal)
  deriving Repr

/-- Python truthiness of the attribute values occurring in AST nodes
(the printer's `if v` filter). -/
def truthy : PyVal → Bool
  | .pstr s => !s.isEmpty
  | .pint n => n != 0
  | .ppos _ _ => true
  | .pdup _ => true
  | .pnode _ => true
  | .plist xs => !xs.isEmpty

/-- `repr` for the non-node, non-list attribute values occurring in AST
nodes. -/
def pyRepr : PyVal → String
  | .pstr s => "'" ++ s ++ "'"
  | .pint n => toString n
  | .ppos a b => "(" ++ toString a ++ ", " ++ toString b ++ ")"
  | .pdup n => "('&', " ++ toString n ++ ")"
  | .pnode _ => "<node>"
  | .plist _ => "<list>"

/-- `dict.pop(key)`: remove the entry, keeping the order of the rest;
`none` models the `KeyError`. -/
def popKey (k : String) : List (String × PyVal) → Option (PyVal × List (String × PyVal))
  | [] => none
  | (k', v) :: rest =>
      if k' = k then some (v, rest)
      else match popKey k rest with
           | some (x, r) => some (x, (k', v) :: r)
           | none => none

def charListLe : List Char → List Char → Bool
  | [], _ => true
  | _ :: _, [] => false
  | a :: as, b :: bs => if a = b then charListLe as bs else decide (a < b)

def strLe (a b : String) : Bool := charListLe a.data b.data

def insertSorted (e : String × PyVal) : List (String × PyVal) → List (String × PyVal)
  | [] => [e]
  | f :: rest => if strLe e.1 f.1 then e :: f :: rest else f :: insertSorted e rest

/-- `sorted(d.items())` on the attribute names. -/
def sortByKey (l : List (String × PyVal)) : List (String × PyVal) :=
  l.foldr insertSorted []

/-- `'word'.title()` for the single-word kind names. -/
def titleWord (s : String) : String :=
  match s.data with
  | [] => ""
  | c :: rest => ⟨c.toUpper :: rest⟩

def indentStr (level : Nat) : String :=
  String.join (List.replicate level "  ")

def joinSep (sep : String) : List String → String
  | [] => ""
  | [x] => x
  | x :: xs => x ++ sep ++ joinSep sep xs

/-- After the sorted pass rewrote some values, rebuild the dictionary in
its original insertion order. -/
def reorder (original updated : List (String × PyVal)) : List (String × PyVal) :=
  original.map (fun kv =>
    match updated.find? (fun kv' => kv'.1 = kv.1) with
    | some kv' => kv'
    | none => kv)

inductive FReq where
  | val (v : PyVal) (level : Nat)
  | fields (entries : List (String × PyVal)) (level : Nat)
  | items (xs : List PyVal) (level : Nat)

inductive FRes where
  | txt (s : String) (v : PyVal)
  | flds (pieces : List String) (entries : List (String × PyVal))
  | elems (lines : List String) (xs : List PyVal)

/-- `dump._format` (parser.py lines 391-418), translated with the object
mutations made explicit: the node case pops `kind` from the node's own
attribute dictionary (raising `KeyError` when absent — the dictionary is
not copied), formats the remaining attributes in sorted order skipping
falsy values, and indents nested `list` nodes; the list case renders
elements one per line.  The returned `PyVal` is the object as the call
leaves it: every formatted node has lost its `kind` attribute. -/
def pyFormat : Nat → FReq → Except String FRes
  | 0, _ => .error "out of fuel"
  | fuel + 1, req =>
    match req with
    | .val (PyVal.pnode entries) level =>
      (match popKey "kind" entries with
       | none => .error "KeyError: 'kind'"
       | some (kv, rest) =>
         match kv with
         | PyVal.pstr kind =>
           let level := if kind = "list" ∧ level > 0 then level + 1 else level
           match pyFormat fuel (.fields (sortByKey rest) level) with
           | .error e => .error e
           | .ok (FRes.flds pieces mutSorted) =>
             let newDict := reorder rest mutSorted
             let core := titleWord kind ++ "Node(" ++ joinSep ", " pieces ++ ")"
             let txt :=
               if kind = "list" ∧ level > 0 then "\n" ++ indentStr level ++ core
               else core
             .ok (.txt txt (PyVal.pnode newDict))
           | .ok _ => .error "internal"
         | _ => .error "TypeError: kind is not a string")
    | .val (PyVal.plist xs) level =>
      (match pyFormat fuel (.items xs level) with
       | .error e => .error e
       | .ok (FRes.elems rendered xs') =>
         let lines := "[" :: rendered.map (fun s => indentStr (level + 2) ++ s ++ ",")
         let lines :=
           if lines.length > 1 then lines ++ [indentStr (level + 1) ++ "]"]
           else ["[]"]
         .ok (.txt (joinSep "\n" lines) (PyVal.plist xs'))
       | .ok _ => .error "internal")
    | .val v _ => .ok (.txt (pyRepr v) v)
    | .fields [] _ => .ok (.flds [] [])
    | .fields ((k, v) :: rest) level =>
      if truthy v then
        match pyFormat fuel (.val v level) with
        | .error e => .error e
        | .ok (FRes.txt s v') =>
          (match pyFormat fuel (.fields rest level) with
           | .error e => .error e
           | .ok (FRes.flds ps es) => .ok (.flds ((k ++ "=" ++ s) :: ps) ((k, v') :: es))
           | .ok _ => .error "internal")
        | .ok _ => .error "internal"
      else
        match pyFormat fuel (.fields rest level) with
        | .error e => .error e
        | .ok (FRes.flds ps es) => .ok (.flds ps ((k, v) :: es))
        | .ok _ => .error "internal"
    | .items [] _ => .ok (.elems [] [])
    | .items (x :: rest) level =>
      match pyFormat fuel (.val x (level + 2)) with
      | .error e => .error e
      | .ok (FRes.txt s x') =>
        (match pyFormat fuel (.items rest level) with
         | .error e => .error e
         | .ok (FRes.elems ls xs') => .ok (.elems (s :: ls) (x' :: xs'))
         | .ok _ => .error "internal")
      | .ok _ => .error "internal"

/-- `dump` (parser.py lines 390, 419-421): `TypeError` unless the argument
is a `Node`, then `_format` at level 0.  Returns the text together with
the object as the call leaves it. -/
def dumpPy (fuel : Nat) (v : PyVal) : Except String (String × PyVal) :=
  match v with
  | PyVal.pnode _ =>
    (match pyFormat fuel (.val v 0) with
     | .ok (FRes.txt s v') => .ok (s, v')
     | .ok _ => .error "internal"
     | .error e => .error e)
  | _ => .error "TypeError: expected Node"

/-- The attribute dictionary of the node `Node(kind='word', word='ls',
pos=(0, 2))` exactly as `parse_command_part` creates it for the source
`"ls"` (keyword-argument insertion order `kind`, `word`, `pos`). -/
def wordNodePy : PyVal :=
  PyVal.pnode [("kind", PyVal.pstr "word"), ("word", PyVal.pstr "ls"), ("pos", PyVal.ppos 0 2)]

/-- What `dump` leaves behind of `wordNodePy`: the node has lost its
`kind` attribute. -/
def dumpedWordNodePy : PyVal :=
  PyVal.pnode [("word", PyVal.pstr "ls"), ("pos", PyVal.ppos 0 2)]

/-! ## Intermediate parser states used to instantiate the general theorems

Each is the state of the parser at the relevant call, read off from running
the embedded parser on the named source. -/

/-- The parser state of the source `"cmd 2>&1"` at the
`parse_redirections` call whose pending word is `"2"`: the lookahead is
the `>` token with no preceding whitespace, and the split-off `&` is
pushed back in the lexer. -/
def c1State : PState :=
  { source := "cmd 2>&1".data
  , lex := { src := "cmd 2>&1".data, pos := 7, pbtokens := [['&']], preceding := ""
           , pbchars := [], ttype := 'c', posix := true }
  , lexpos := 6
  , tok := some ⟨some "number", some "2", " ", 4, 5⟩
  , peek := some ⟨some ">", some ">", "", 5, 6⟩ }

/-- The parser state of `"echo >"` at the `parse_redirections` call with
pending word `"echo"`. -/
def c7StateA : PState :=
  { source := "echo >".data
  , lex := { src := "echo >".data, pos := 6, pbtokens := [], preceding := " "
           , pbchars := [], ttype := 'c', posix := true }
  , lexpos := 6
  , tok := some ⟨some "word", some "echo", "", 0, 4⟩
  , peek := some ⟨some ">", some ">", " ", 5, 6⟩ }

/-- `c7StateA` after consuming the `>` token: the lookahead is the
end-of-input token at offset 6. -/
def c7StateA' : PState :=
  { source := "echo >".data
  , lex := { src := "echo >".data, pos := 6, pbtokens := [], preceding := ""
           , pbchars := [], ttype := 'c', posix := true }
  , lexpos := 6
  , tok := some ⟨some ">", some ">", " ", 5, 6⟩
  , peek := some ⟨none, none, "", 6, 6⟩ }

/-- The parser state of `"echo >&x"` at the `parse_redirections` call with
pending word `"echo"` (the split-off `&` is pushed back). -/
def c7StateB : PState :=
  { source := "echo >&x".data
  , lex := { src := "echo >&x".data, pos := 7, pbtokens := [['&']], preceding := " "
           , pbchars := [], ttype := 'c', posix := true }
  , lexpos := 6
  , tok := some ⟨some "word", some "echo", "", 0, 4⟩
  , peek := some ⟨some ">", some ">", " ", 5, 6⟩ }

/-- `c7StateB` after consuming the `>` token: the lookahead is the `&`. -/
def c7StateB' : PState :=
  { source := "echo >&x".data
  , lex := { src := "echo >&x".data, pos := 7, pbtokens := [], preceding := " "
           , pbchars := [], ttype := 'c', posix := true }
  , lexpos := 7
  , tok := some ⟨some ">", some ">", " ", 5, 6⟩
  , peek := some ⟨some "&", some "&", " ", 6, 7⟩ }

/-- `c7StateB'` after consuming the `&`: the lookahead is the word `x` at
offset 7, not a number. -/
def c7StateB'' : PState :=
  { source := "echo >&x".data
  , lex := { src := "echo >&x".data, pos := 8, pbtokens := [], preceding := ""
           , pbchars := [], ttype := 'a', posix := true }
  , lexpos := 8
  , tok := some ⟨some "&", some "&", " ", 6, 7⟩
  , peek := some ⟨some "word", some "x", "", 7, 8⟩ }

/-- The parser state of `"(a&&)"` at the `parse_list` loop inside the
group, lookahead `&&`. -/
def c3StateA : PState :=
  { source := "(a&&)".data
  , lex := { src := "(a&&)".data, pos := 5, pbtokens := [[')']], preceding := ""
           , pbchars := [], ttype := 'c', posix := true }
  , lexpos := 4
  , tok := some ⟨some "word", some "a", "", 1, 2⟩
  , peek := some ⟨some "&&", some "&&", "", 2, 4⟩ }

/-- `c3StateA` after consuming the `&&`: the lookahead is the `)`. -/
def c3StateA' : PState :=
  { source := "(a&&)".data
  , lex := { src := "(a&&)".data, pos := 5, pbtokens := [], preceding := ""
           , pbchars := [], ttype := 'c', posix := true }
  , lexpos := 5
  , tok := some ⟨some "&&", some "&&", "", 2, 4⟩
  , peek := some ⟨some ")", some ")", "", 4, 5⟩ }

/-- The parser state of `"a ;"` at the `parse_list` loop, lookahead `;`. -/
def c3StateB : PState :=
  { source := "a ;".data
  , lex := { src := "a ;".data, pos := 3, pbtokens := [], preceding := " "
           , pbchars := [], ttype := 'c', posix := true }
  , lexpos := 3
  , tok := some ⟨some "word", some "a", "", 0, 1⟩
  , peek := some ⟨some ";", some ";", " ", 2, 3⟩ }

/-- `c3StateB` after consuming the `;`: the lookahead is end-of-input. -/
def c3StateB' : PState :=
  { source := "a ;".data
  , lex := { src := "a ;".data, pos := 3, pbtokens := [], preceding := ""
           , pbchars := [], ttype := 'c', posix := true }
  , lexpos := 3
  , tok := some ⟨some ";", some ";", " ", 2, 3⟩
  , peek := some ⟨none, none, "", 3, 3⟩ }

/-- The parser state of `"a &&"` at the `parse_list` loop, lookahead `&&`. -/
def c3StateC : PState :=
  { source := "a &&".data
  , lex := { src := "a &&".data, pos := 4, pbtokens := [], preceding := " "
           , pbchars := [], ttype := 'c', posix := true }
  , lexpos := 4
  , tok := some ⟨some "word", some "a", "", 0, 1⟩
  , peek := some ⟨some "&&", some "&&", " ", 2, 4⟩ }

/-- `c3StateC` after consuming the `&&`: the lookahead is end-of-input. -/
def c3StateC' : PState :=
  { source := "a &&".data
  , lex := { src := "a &&".data, pos := 4, pbtokens := [], preceding := ""
           , pbchars := [], ttype := 'c', posix := true }
  , lexpos := 4
  , tok := some ⟨some "&&", some "&&", " ", 2, 4⟩
  , peek := some ⟨none, none, "", 4, 4⟩ }

/-- The parser state of `"(a) >b"` at `parse`'s initial lookahead. -/
def c4StateA : PState :=
  { source := "(a) >b".data
  , lex := { src := "(a) >b".data, pos := 1, pbtokens := [], preceding := ""
           , pbchars := [], ttype := 'c', posix := true }
  , lexpos := 1
  , tok := none
  , peek := some ⟨some "(", some "(", "", 0, 1⟩ }

/-- `c4StateA` after consuming the `(`. -/
def c4StateA2 : PState :=
  { source := "(a) >b".data
  , lex := { src := "(a) >b".data, pos := 2, pbtokens := [], preceding := ""
           , pbchars := [')'], ttype := 'a', posix := true }
  , lexpos := 2
  , tok := some ⟨some "(", some "(", "", 0, 1⟩
  , peek := some ⟨some "word", some "a", "", 1, 2⟩ }

/-- `c4StateA2` after parsing the inner list (the command `a`). -/
def c4StateA3 : PState :=
  { source := "(a) >b".data
  , lex := { src := "(a) >b".data, pos := 3, pbtokens := [], preceding := ""
           , pbchars := [], ttype := 'c', posix := true }
  , lexpos := 4
  , tok := some ⟨some "word", some "a", "", 1, 2⟩
  , peek := some ⟨some ")", some ")", "", 2, 3⟩ }

/-- `c4StateA3` after consuming the `)`: the lookahead is the `>` with a
preceding space. -/
def c4StateA4 : PState :=
  { source := "(a) >b".data
  , lex := { src := "(a) >b".data, pos := 5, pbtokens := [], preceding := " "
           , pbchars := [], ttype := 'c', posix := true }
  , lexpos := 5
  , tok := some ⟨some ")", some ")", "", 2, 3⟩
  , peek := some ⟨some ">", some ">", " ", 4, 5⟩ }

/-- `c4StateA4` after parsing the redirection `>b`. -/
def c4StateA5 : PState :=
  { source := "(a) >b".data
  , lex := { src := "(a) >b".data, pos := 6, pbtokens := [], preceding := ""
           , pbchars := [], ttype := 'a', posix := true }
  , lexpos := 6
  , tok := some ⟨some "word", some "b", "", 5, 6⟩
  , peek := some ⟨none, none, "", 6, 6⟩ }

/-- The parser state of `"(a)>b"` just after consuming the `)`: the
lookahead `>` has *no* preceding whitespace. -/
def c4StateB : PState :=
  { source := "(a)>b".data
  , lex := { src := "(a)>b".data, pos := 4, pbtokens := [], preceding := ""
           , pbchars := [], ttype := 'c', posix := true }
  , lexpos := 4
  , tok := some ⟨some ")", some ")", "", 2, 3⟩
  , peek := some ⟨some ">", some ">", "", 3, 4⟩ }

/-- The lexer pushback invariant: every pushed-back token is nonempty
(the control-run splitter only pushes nonempty pieces). -/
def pbInv (lx : LexState) : Prop := ∀ t ∈ lx.pbtokens, t ≠ []

/-- What a successful `run` guarantees about its result, per request kind:
parsed nodes satisfy `SpanInv`, and the loop requests preserve
`SpanInv` of the accumulated parts. -/
def spanPost : Req → Res → Prop
  | .list, .node n => SpanInv n
  | .pipeline, .node n => SpanInv n
  | .command, .node n => SpanInv n
  | .simple, .node n => SpanInv n
  | .listLoop parts0, .parts ps => (∀ x ∈ parts0, SpanInv x) → ∀ x ∈ ps, SpanInv x
  | .pipelineLoop parts0, .parts ps => (∀ x ∈ parts0, SpanInv x) → ∀ x ∈ ps, SpanInv x
  | .simpleLoop parts0, .parts ps => (∀ x ∈ parts0, SpanInv x) → ∀ x ∈ ps, SpanInv x
  | .part, .parts ps => ∀ x ∈ ps, SpanInv x
  | .reds _ acc, .redsRes ps _ => (∀ x ∈ acc, SpanInv x) → ∀ x ∈ ps, SpanInv x
  | _, _ => True

/-! # Theorems -/

/-! ## Monadic plumbing -/

theorem except_bind_ok {α β : Type} (x : Except Perr α) (g : α → Except Perr β) (r : β)
    (h : (x >>= g) = .ok r) : ∃ a, x = .ok a ∧ g a = .ok r := by
  cases x with
  | error e => simp [Bind.bind, Except.bind] at h
  | ok a => exact ⟨a, rfl, by simpa [Bind.bind, Except.bind] using h⟩

theorem ok_bind {α β : Type} (a : α) (g : α → Except Perr β) :
    ((Except.ok a : Except Perr α) >>= g) = g a := rfl

theorem error_bind {α β : Type} (e : Perr) (g : α → Except Perr β) :
    ((Except.error e : Except Perr α) >>= g) = .error e := rfl

theorem pure_bind_ok {α β : Type} (a : α) (g : α → Except Perr β) :
    ((pure a : Except Perr α) >>= g) = g a := rfl

theorem peek_cached (st : PState) (tk : Tok) (h : st.peek = some tk) :
    peekTok st = .ok (tk, st) := by
  unfold peekTok
  rw [h]

theorem peekTok_peek (st st' : PState) (r : Tok) (h : peekTok st = .ok (r, st')) :
    st'.peek = some r := by
  unfold peekTok at h
  cases hp : st.peek with
  | some p =>
      rw [hp] at h
      obtain ⟨rfl, rfl⟩ : p = r ∧ st = st' := by simpa [Prod.ext_iff] using h
      exact hp
  | none =>
      rw [hp] at h
      cases hnt : nextToken st with
      | error e => rw [hnt] at h; exact Except.noConfusion h
      | ok x =>
          obtain ⟨r₁, st₁⟩ := x
          rw [hnt] at h
          obtain ⟨rfl, rfl⟩ : r₁ = r ∧ { st₁ with peek := some r₁ } = st' := by
            simpa [Prod.ext_iff] using h
          rfl

/-! ## C2 / C9: the control-run splitter -/

theorem gvcLoop_pairSpec (t : List Char) (h : ∀ c ∈ t, isSplitChar c = true) :
    gvcLoop none t = pairSpec t := by
  induction t using pairSpec.induct with
  | case1 => rfl
  | case2 c =>
      have hc : isSplitChar c = true := h c (by simp)
      simp [gvcLoop, pairSpec, hc]
  | case3 a b rest hmem ih =>
      have ha : isSplitChar a = true := h a (by simp)
      have ih' := ih (fun c hc => h c (by simp [hc]))
      simp [gvcLoop, pairSpec, ha, hmem, ih']
  | case4 a b rest hmem ih =>
      have ha : isSplitChar a = true := h a (by simp)
      have ih' := ih (fun c hc => h c (by simp [hc]))
      simp [gvcLoop, pairSpec, ha, hmem, ih']

theorem gvcLoop_shape (t : List Char) : ∀ (last : Option Char),
    ∀ x ∈ gvcLoop last t, (∃ c, x = [c]) ∨ x ∈ permitted_tokens := by
  induction t with
  | nil =>
      intro last x hx
      cases last with
      | none => simp [gvcLoop] at hx
      | some l =>
          simp [gvcLoop] at hx
          exact Or.inl ⟨l, hx⟩
  | cons c rest ih =>
      intro last x hx
      cases last with
      | none =>
          by_cases hc : isSplitChar c = true
          · simp [gvcLoop, hc] at hx
            exact ih (some c) x hx
          · simp [gvcLoop, hc] at hx
            rcases hx with rfl | hx
            · exact Or.inl ⟨c, rfl⟩
            · exact ih none x hx
      | some l =>
          by_cases hm : [l, c] ∈ permitted_tokens
          · simp [gvcLoop, hm] at hx
            rcases hx with rfl | hx
            · exact Or.inr hm
            · exact ih none x hx
          · simp [gvcLoop, hm] at hx
            rcases hx with rfl | rfl | hx
            · exact Or.inl ⟨l, rfl⟩
            · exact Or.inl ⟨c, rfl⟩
            · exact ih none x hx

/-- C2: for strings over the alphabet `>`, `&`, `|`, `get_valid_controls`
implements exactly the left-to-right adjacent-pairing rule (`pairSpec`,
written from the claim's words): a pair is merged exactly when it is one
of `&&`, `||`, `|&`, `>>`, unmatched characters come out alone, and there
is no backtracking — in particular `">>>"` splits as `['>>', '>']` and
never as `['>', '>>']`. -/
theorem claim_C2_control_run_splitter (t : List Char)
    (h : ∀ c ∈ t, isSplitChar c = true) :
    get_valid_controls t = pairSpec t ∧
    get_valid_controls ">>>".data = [['>', '>'], ['>']] ∧
    get_valid_controls ">>>".data ≠ [['>'], ['>', '>']] := by
  refine ⟨?_, by decide, by decide⟩
  unfold get_valid_controls
  split
  · next hlen =>
      match t, hlen with
      | [c], _ => rfl
  · exact gvcLoop_pairSpec t h

/-- C2 witness: the splitter agrees with the pairing rule on `">>>"`. -/
theorem claim_C2_control_run_splitter_witness :
    (∀ c ∈ ">>>".data, isSplitChar c = true) ∧
    get_valid_controls ">>>".data = pairSpec ">>>".data :=
  ⟨by decide, (claim_C2_control_run_splitter ">>>".data (by decide)).1⟩

/-- C9: the splitter is idempotent on its own output: over the alphabet
`>`, `&`, `|`, every emitted piece `x` satisfies
`get_valid_controls x = [x]`. -/
theorem claim_C9_splitter_idempotent (t : List Char)
    (h : ∀ c ∈ t, isSplitChar c = true) :
    ∀ x ∈ get_valid_controls t, get_valid_controls x = [x] := by
  intro x hx
  unfold get_valid_controls at hx
  split at hx
  · next hlen =>
      simp at hx
      subst hx
      unfold get_valid_controls
      simp [hlen]
  · have hshape := gvcLoop_shape t none x hx
    rcases hshape with ⟨c, rfl⟩ | hp
    · rfl
    · fin_cases hp <;> rfl

/-- C9 witness: replaying the piece `">>"` of the split of `">>>"`
reproduces it unchanged. -/
theorem claim_C9_splitter_idempotent_witness :
    get_valid_controls ['>', '>'] = [['>', '>']] :=
  claim_C9_splitter_idempotent ">>>".data (by decide) ['>', '>'] (by decide)

/-! ## C10: determinism of parsing -/

/-- Structural equality of AST nodes.  `Node.__eq__` (parser.py
lines 53-56) compares the full attribute dictionaries, which on the
closed set of node variants is exactly structural equality of all fields
including the spans. -/
def nodeStructEq (a b : Node) : Prop := a = b

/-- C10: parsing is deterministic — for one source string and one
explicitly supplied POSIX flag (and fuel), two runs of
`parse_command_line` either raise errors with the same message and the
same offset, or produce structurally equal ASTs. -/
theorem claim_C10_parse_deterministic (s : String) (posix : Bool) (fuel : Nat)
    (r1 r2 : Except Perr Node)
    (h1 : parseCommandLine s posix fuel = r1)
    (h2 : parseCommandLine s posix fuel = r2) :
    r1 = r2 ∧
    (∀ a b, r1 = .ok a → r2 = .ok b → nodeStructEq a b) ∧
    (∀ e1 e2, r1 = .error e1 → r2 = .error e2 → e1.msg = e2.msg ∧ e1.pos = e2.pos) := by
  subst h1
  subst h2
  refine ⟨rfl, ?_, ?_⟩
  · intro a b ha hb
    have hab := ha.symm.trans hb
    cases hab
    rfl
  · intro e1 e2 he1 he2
    have he := he1.symm.trans he2
    cases he
    exact ⟨rfl, rfl⟩

/-- C10 witness: two runs on `"ls"` agree, and the resulting ASTs are
structurally equal. -/
theorem claim_C10_parse_deterministic_witness :
    nodeStructEq (Node.command [Node.word "ls" (0, 2)] (0, 2))
      (Node.command [Node.word "ls" (0, 2)] (0, 2)) :=
  (claim_C10_parse_deterministic "ls" true 20
      (.ok (Node.command [Node.word "ls" (0, 2)] (0, 2)))
      (.ok (Node.command [Node.word "ls" (0, 2)] (0, 2)))
      rfl rfl).2.1 _ _ rfl rfl

/-! ## C1: fd inference for redirections -/

theorem redsStep_none_node2 (st st₂ : PState) (red : Node) (node2 : Option Node)
    (h : redsStep none st = .ok (some (red, node2), st₂)) : node2 = none := by
  unfold redsStep at h
  obtain ⟨⟨pk, st₁⟩, hpk, h⟩ := except_bind_ok _ _ _ h
  try dsimp only [] at h
  by_cases hty : pk.type = some ">" ∨ pk.type = some ">>"
  · rw [if_pos hty] at h
    by_cases hpre : pk.preceding = ""
    · rw [if_pos hpre] at h
      obtain ⟨x, hx, h⟩ := except_bind_ok _ _ _ h
      exact Except.noConfusion hx
    · rw [if_neg hpre] at h
      obtain ⟨⟨num, start, n2⟩, hd, h⟩ := except_bind_ok _ _ _ h
      try dsimp only [] at h
      obtain ⟨rfl, rfl, rfl⟩ : (1 : Int) = num ∧ pk.start = start ∧ none = n2 := by
        simpa [Prod.ext_iff] using hd
      obtain ⟨stC, hcons, h⟩ := except_bind_ok _ _ _ h
      try dsimp only [] at h
      obtain ⟨⟨tk2, stD⟩, hpk2, h⟩ := except_bind_ok _ _ _ h
      try dsimp only [] at h
      by_cases h2 : tk2.type = some "word" ∨ tk2.type = some "number"
      · rw [if_pos h2] at h
        obtain ⟨stE, hcons2, h⟩ := except_bind_ok _ _ _ h
        try dsimp only [] at h
        cases hl : stE.tok with
        | none => rw [hl] at h; exact Except.noConfusion h
        | some last =>
            rw [hl] at h
            simp only [Except.ok.injEq, Prod.mk.injEq, Option.some.injEq] at h
            exact h.1.2.symm
      · rw [if_neg h2] at h
        by_cases h3 : tk2.type = some "&"
        · rw [if_pos h3] at h
          obtain ⟨stE, hc3, h⟩ := except_bind_ok _ _ _ h
          try dsimp only [] at h
          obtain ⟨⟨tk3, stF⟩, hpk3, h⟩ := except_bind_ok _ _ _ h
          try dsimp only [] at h
          by_cases h4 : tk3.type = some "number"
          · rw [if_pos h4] at h
            obtain ⟨stG, hc4, h⟩ := except_bind_ok _ _ _ h
            try dsimp only [] at h
            cases hl : stG.tok with
            | none => rw [hl] at h; exact Except.noConfusion h
            | some last =>
                rw [hl] at h
                simp only [Except.ok.injEq, Prod.mk.injEq, Option.some.injEq] at h
                exact h.1.2.symm
          · rw [if_neg h4] at h; exact Except.noConfusion h
        · rw [if_neg h3] at h; exact Except.noConfusion h
  · rw [if_neg hty] at h
    simp only [Except.ok.injEq, Prod.mk.injEq] at h
    exact (Option.noConfusion h.1)

theorem reds_loop_accum (f : Nat) : ∀ (node : Option Node) (acc parts : List Node)
    (u : Bool) (st st' : PState),
    run f (.reds node acc) st = .ok (.redsRes parts u, st') →
    ∃ suf, parts = acc ++ suf := by
  induction f with
  | zero => intro node acc parts u st st' h; simp [run] at h
  | succ f ih =>
    intro node acc parts u st st' h
    simp only [run] at h
    cases hs : redsStep node st with
    | error e => rw [hs] at h; exact Except.noConfusion h
    | ok x =>
      obtain ⟨step, st₂⟩ := x
      rw [hs] at h
      cases step with
      | none =>
          simp only [Except.ok.injEq, Prod.mk.injEq, Res.redsRes.injEq] at h
          exact ⟨[], by simp [h.1.1.symm]⟩
      | some rn =>
          obtain ⟨red, node2⟩ := rn
          obtain ⟨suf, hsuf⟩ := ih node2 (acc ++ [red]) parts u st₂ st' h
          exact ⟨red :: suf, by simpa using hsuf⟩

theorem reds_loop_used (f : Nat) : ∀ (acc parts : List Node) (u : Bool) (st st' : PState),
    run f (.reds none acc) st = .ok (.redsRes parts u, st') → u = true := by
  induction f with
  | zero => intro acc parts u st st' h; simp [run] at h
  | succ f ih =>
    intro acc parts u st st' h
    simp only [run] at h
    cases hs : redsStep none st with
    | error e => rw [hs] at h; exact Except.noConfusion h
    | ok x =>
      obtain ⟨step, st₂⟩ := x
      rw [hs] at h
      cases step with
      | none =>
          simp only [Except.ok.injEq, Prod.mk.injEq, Res.redsRes.injEq] at h
          simpa [Option.isNone] using h.1.2.symm
      | some rn =>
          obtain ⟨red, node2⟩ := rn
          have hn2 := redsStep_none_node2 st st₂ red node2 hs
          subst hn2
          exact ih (acc ++ [red]) parts u st₂ st' h

theorem redsStep_word_fd (st st₁ st₂ : PState) (pk : Tok) (w : String) (wpos : Nat × Nat)
    (red : Node) (node2 : Option Node)
    (hpk : peekTok st = .ok (pk, st₁))
    (hty : pk.type = some ">" ∨ pk.type = some ">>")
    (hstep : redsStep (some (Node.word w wpos)) st = .ok (some (red, node2), st₂)) :
    (∀ n : Int, pk.preceding = "" → pyInt w.data = some n → 0 < n →
       red.redInput = n ∧ red.pos.1 = wpos.1 ∧ node2 = none) ∧
    ((pk.preceding ≠ "" ∨ pyInt w.data = none ∨ (∀ n : Int, pyInt w.data = some n → n ≤ 0)) →
       red.redInput = 1 ∧ red.pos.1 = pk.start ∧ node2 = some (Node.word w wpos)) := by
  unfold redsStep at hstep
  obtain ⟨⟨pk', st₁'⟩, hpk', h⟩ := except_bind_ok _ _ _ hstep
  rw [hpk] at hpk'
  obtain ⟨rfl, rfl⟩ : pk = pk' ∧ st₁ = st₁' := by
    simpa [Prod.ext_iff] using hpk'
  try dsimp only [] at h
  rw [if_pos hty] at h
  obtain ⟨⟨num, start, n2⟩, hd, h⟩ := except_bind_ok _ _ _ h
  try dsimp only [] at h
  have hfin : red.redInput = num ∧ red.pos.1 = start ∧ node2 = n2 := by
    obtain ⟨stC, hcons, h⟩ := except_bind_ok _ _ _ h
    try dsimp only [] at h
    obtain ⟨⟨tk2, stD⟩, hpk2, h⟩ := except_bind_ok _ _ _ h
    try dsimp only [] at h
    by_cases h2 : tk2.type = some "word" ∨ tk2.type = some "number"
    · rw [if_pos h2] at h
      obtain ⟨stE, hcons2, h⟩ := except_bind_ok _ _ _ h
      try dsimp only [] at h
      cases hl : stE.tok with
      | none => rw [hl] at h; exact Except.noConfusion h
      | some last =>
          rw [hl] at h
          simp only [Except.ok.injEq, Prod.mk.injEq, Option.some.injEq] at h
          obtain ⟨⟨hred, hn2⟩, hst⟩ := h
          subst hred
          exact ⟨rfl, rfl, hn2.symm⟩
    · rw [if_neg h2] at h
      by_cases h3 : tk2.type = some "&"
      · rw [if_pos h3] at h
        obtain ⟨stE, hc3, h⟩ := except_bind_ok _ _ _ h
        try dsimp only [] at h
        obtain ⟨⟨tk3, stF⟩, hpk3, h⟩ := except_bind_ok _ _ _ h
        try dsimp only [] at h
        by_cases h4 : tk3.type = some "number"
        · rw [if_pos h4] at h
          obtain ⟨stG, hc4, h⟩ := except_bind_ok _ _ _ h
          try dsimp only [] at h
          cases hl : stG.tok with
          | none => rw [hl] at h; exact Except.noConfusion h
          | some last =>
              rw [hl] at h
              simp only [Except.ok.injEq, Prod.mk.injEq, Option.some.injEq] at h
              obtain ⟨⟨hred, hn2⟩, hst⟩ := h
              subst hred
              exact ⟨rfl, rfl, hn2.symm⟩
        · rw [if_neg h4] at h; exact Except.noConfusion h
      · rw [if_neg h3] at h; exact Except.noConfusion h
  constructor
  · intro n hpre hint hn
    simp only [if_pos hpre] at hd
    try dsimp only [] at hd
    rw [hint] at hd
    try dsimp only [] at hd
    simp only [if_pos hn] at hd
    obtain ⟨rfl, rfl, rfl⟩ : n = num ∧ wpos.1 = start ∧ (none : Option Node) = n2 := by
      simpa [Prod.ext_iff] using hd
    exact hfin
  · intro hother
    have hd1 : (Except.ok ((1 : Int), pk.start, some (Node.word w wpos)) :
        Except Perr (Int × Nat × Option Node)) = .ok (num, start, n2) := by
      rcases hother with hpre | hnone | hle
      · simpa only [if_neg hpre] using hd
      · by_cases hpre : pk.preceding = ""
        · simp only [if_pos hpre] at hd
          try dsimp only [] at hd
          rw [hnone] at hd
          try dsimp only [] at hd
          exact hd
        · simpa only [if_neg hpre] using hd
      · by_cases hpre : pk.preceding = ""
        · simp only [if_pos hpre] at hd
          try dsimp only [] at hd
          cases hint : pyInt w.data with
          | none =>
              rw [hint] at hd
              try dsimp only [] at hd
              exact hd
          | some k =>
              rw [hint] at hd
              try dsimp only [] at hd
              have hk : ¬ (k > 0) := not_lt.mpr (hle k hint)
              simp only [if_neg hk] at hd
              exact hd
        · simpa only [if_neg hpre] using hd
    obtain ⟨rfl, rfl, rfl⟩ : (1 : Int) = num ∧ pk.start = start ∧
        (some (Node.word w wpos) : Option Node) = n2 := by
      simpa [Prod.ext_iff] using hd1
    exact hfin

/-- C1 (amended): in `parse_redirections`, when a `>`/`>>` lookahead token
has no preceding whitespace and the pending word of the *current command
part* — the word `parse_command_part` handed in, provided no earlier
redirection of the same chain has already consumed it — parses as a
positive integer `n`, the produced redirect gets fd `n`, its span starts
at that word's start offset and the word is dropped (the loop thereafter
reports it as used, so it is removed from the command's children); in
every other iteration the fd is 1 and the span starts at the operator.
The claim's wording "the immediately preceding element of the command" is
wrong: the word is consulted even when redirects sit between it and the
operator (see `claim_C1_fd_inference_counterexample`).  The claim's
example holds: `"cmd 2>&1"` parses to
`command[word "cmd", redirect(fd 2, ">", ('&', 1))]`. -/
theorem claim_C1_fd_inference (st st₁ st₂ : PState) (pk : Tok) (w : String)
    (wpos : Nat × Nat) (red : Node) (node2 : Option Node)
    (hpk : peekTok st = .ok (pk, st₁))
    (hty : pk.type = some ">" ∨ pk.type = some ">>")
    (hstep : redsStep (some (Node.word w wpos)) st = .ok (some (red, node2), st₂)) :
    ((∀ n : Int, pk.preceding = "" → pyInt w.data = some n → 0 < n →
        red.redInput = n ∧ red.pos.1 = wpos.1 ∧ node2 = none) ∧
     ((pk.preceding ≠ "" ∨ pyInt w.data = none ∨ (∀ n : Int, pyInt w.data = some n → n ≤ 0)) →
        red.redInput = 1 ∧ red.pos.1 = pk.start ∧ node2 = some (Node.word w wpos))) ∧
    (∀ f acc parts u st₃ st₄,
        run f (.reds (none : Option Node) acc) st₃ = .ok (.redsRes parts u, st₄) →
        u = true) ∧
    parseCommandLine "cmd 2>&1" true 50 =
      .ok (Node.command
        [Node.word "cmd" (0, 3), Node.redirect 2 ">" (RTarget.dup 1) (4, 8)] (0, 8)) :=
  ⟨redsStep_word_fd st st₁ st₂ pk w wpos red node2 hpk hty hstep,
   fun f acc parts u st₃ st₄ h => reds_loop_used f acc parts u st₃ st₄ h,
   rfl⟩

/-- C1 counterexample: in `"echo 2 >a>b"` the second `>` has no preceding
whitespace and the element of the command immediately preceding it is the
*redirect* `1 > a` — not a bare word — so the claim requires fd 1 there;
the parser nevertheless reaches back to the word `"2"` (which precedes
the *first*, whitespace-separated `>`), gives the second redirect fd 2,
removes the word from the command and starts the second redirect's span
at the word's offset 5. -/
theorem claim_C1_fd_inference_counterexample :
    parseCommandLine "echo 2 >a>b" true 50 =
      .ok (Node.command
        [Node.word "echo" (0, 4),
         Node.redirect 1 ">" (RTarget.file "a") (7, 9),
         Node.redirect 2 ">" (RTarget.file "b") (5, 11)] (0, 11)) ∧
    (Node.redirect 1 ">" (RTarget.file "a") (7, 9)).isWord = false ∧
    (Node.redirect 2 ">" (RTarget.file "b") (5, 11)).redInput ≠ 1 :=
  ⟨rfl, rfl, by decide⟩

/-- C1 witness: the amended rule instantiated on `"cmd 2>&1"` at the
`parse_redirections` call with pending word `"2"`: the produced redirect
has fd 2, its span starts at the word's offset 4, and the word is
consumed. -/
theorem claim_C1_fd_inference_witness :
    (Node.redirect 2 ">" (RTarget.dup 1) (4, 8)).redInput = 2 ∧
    (Node.redirect 2 ">" (RTarget.dup 1) (4, 8)).pos.1 = 4 ∧
    (none : Option Node) = none :=
  (claim_C1_fd_inference c1State c1State
      { source := "cmd 2>&1".data
      , lex := { src := "cmd 2>&1".data, pos := 8, pbtokens := [], preceding := ""
               , pbchars := [], ttype := 'a', posix := true }
      , lexpos := 8
      , tok := some ⟨some "number", some "1", "", 7, 8⟩
      , peek := some ⟨none, none, "", 8, 8⟩ }
      ⟨some ">", some ">", "", 5, 6⟩ "2" (4, 5)
      (Node.redirect 2 ">" (RTarget.dup 1) (4, 8)) none
      rfl (Or.inl rfl) rfl).1.1 2 rfl rfl (by decide)

/-! ## C7: errors for malformed redirections -/

/-- C7 (amended): in `parse_redirections`, a `>`/`>>` operator followed by
a token that is neither a word, a number nor `&` raises the parsing error
`syntax: expecting filename or &` at that token's start offset (the
end-of-input offset when the source ends there: for `"echo >"` the offset
is 6, the source's length); and `&` not followed by a number token raises
`syntax: number expected after &` at that token's offset.  The claim's
quoted messages lack the `syntax: ` prefix the code attaches (see the
counterexample). -/
theorem claim_C7_redirect_errors (st st₁ stC stD : PState) (pk tk2 : Tok)
    (w : String) (wpos : Nat × Nat)
    (hpk : peekTok st = .ok (pk, st₁))
    (hty : pk.type = some ">" ∨ pk.type = some ">>")
    (hcons : consume (if pk.type = some ">" then ">" else ">>") st₁ = .ok stC)
    (hpk2 : peekTok stC = .ok (tk2, stD)) :
    (tk2.type ≠ some "word" → tk2.type ≠ some "number" → tk2.type ≠ some "&" →
       redsStep (some (Node.word w wpos)) st =
         .error ⟨"syntax: expecting filename or &", tk2.start⟩) ∧
    (∀ stE stF tk3, tk2.type = some "&" →
       consume "&" stD = .ok stE → peekTok stE = .ok (tk3, stF) →
       tk3.type ≠ some "number" →
       redsStep (some (Node.word w wpos)) st =
         .error ⟨"syntax: number expected after &", tk3.start⟩) ∧
    parseCommandLine "echo >" true 50 =
      .error ⟨"syntax: expecting filename or &", 6⟩ ∧
    "echo >".data.length = 6 := by
  refine ⟨?_, ?_, rfl, rfl⟩
  · intro hnw hnn hna
    have hnor : ¬ (tk2.type = some "word" ∨ tk2.type = some "number") := by
      rintro (h | h)
      · exact hnw h
      · exact hnn h
    unfold redsStep
    rw [hpk, ok_bind]
    try dsimp only []
    rw [if_pos hty]
    by_cases hpre : pk.preceding = ""
    · rw [if_pos hpre]
      try dsimp only []
      cases hint : pyInt w.data with
      | some k =>
          try dsimp only []
          by_cases hk : k > 0
          · rw [if_pos hk, ok_bind]
            try dsimp only []
            rw [hcons, ok_bind, hpk2, ok_bind]
            try dsimp only []
            rw [if_neg hnor, if_neg hna]
          · rw [if_neg hk, ok_bind]
            try dsimp only []
            rw [hcons, ok_bind, hpk2, ok_bind]
            try dsimp only []
            rw [if_neg hnor, if_neg hna]
      | none =>
          try dsimp only []
          rw [ok_bind]
          try dsimp only []
          rw [hcons, ok_bind, hpk2, ok_bind]
          try dsimp only []
          rw [if_neg hnor, if_neg hna]
    · rw [if_neg hpre, ok_bind]
      try dsimp only []
      rw [hcons, ok_bind, hpk2, ok_bind]
      try dsimp only []
      rw [if_neg hnor, if_neg hna]
  · intro stE stF tk3 ha hc2 hpk3 hn3
    have hnor : ¬ (tk2.type = some "word" ∨ tk2.type = some "number") := by
      rintro (h | h) <;> rw [ha] at h <;> simp at h
    unfold redsStep
    rw [hpk, ok_bind]
    try dsimp only []
    rw [if_pos hty]
    by_cases hpre : pk.preceding = ""
    · rw [if_pos hpre]
      try dsimp only []
      cases hint : pyInt w.data with
      | some k =>
          try dsimp only []
          by_cases hk : k > 0
          · rw [if_pos hk, ok_bind]
            try dsimp only []
            rw [hcons, ok_bind, hpk2, ok_bind]
            try dsimp only []
            rw [if_neg hnor, if_pos ha]
            rw [hc2, ok_bind, hpk3, ok_bind]
            try dsimp only []
            rw [if_neg hn3]
          · rw [if_neg hk, ok_bind]
            try dsimp only []
            rw [hcons, ok_bind, hpk2, ok_bind]
            try dsimp only []
            rw [if_neg hnor, if_pos ha]
            rw [hc2, ok_bind, hpk3, ok_bind]
            try dsimp only []
            rw [if_neg hn3]
      | none =>
          try dsimp only []
          rw [ok_bind]
          try dsimp only []
          rw [hcons, ok_bind, hpk2, ok_bind]
          try dsimp only []
          rw [if_neg hnor, if_pos ha]
          rw [hc2, ok_bind, hpk3, ok_bind]
          try dsimp only []
          rw [if_neg hn3]
    · rw [if_neg hpre, ok_bind]
      try dsimp only []
      rw [hcons, ok_bind, hpk2, ok_bind]
      try dsimp only []
      rw [if_neg hnor, if_pos ha]
      rw [hc2, ok_bind, hpk3, ok_bind]
      try dsimp only []
      rw [if_neg hn3]

/-- C7 counterexample: the raised messages carry a `syntax: ` prefix, so
they are not the strings the claim quotes.  `"echo >"` raises at the
end-of-input offset 6 with message `syntax: expecting filename or &`, and
`"echo >&x"` raises at offset 7 with `syntax: number expected after &`. -/
theorem claim_C7_redirect_errors_counterexample :
    parseCommandLine "echo >" true 50 =
      .error ⟨"syntax: expecting filename or &", 6⟩ ∧
    "syntax: expecting filename or &" ≠ "expecting filename or &" ∧
    parseCommandLine "echo >&x" true 50 =
      .error ⟨"syntax: number expected after &", 7⟩ ∧
    "syntax: number expected after &" ≠ "number expected after &" :=
  ⟨rfl, by decide, rfl, by decide⟩

/-- C7 witness: both error paths instantiated — `"echo >"` (missing
target at end-of-input, offset 6) and `"echo >&x"` (`&` followed by a
word, offset 7). -/
theorem claim_C7_redirect_errors_witness :
    redsStep (some (Node.word "echo" (0, 4))) c7StateA =
      .error ⟨"syntax: expecting filename or &", 6⟩ ∧
    redsStep (some (Node.word "echo" (0, 4))) c7StateB =
      .error ⟨"syntax: number expected after &", 7⟩ :=
  ⟨(claim_C7_redirect_errors c7StateA c7StateA c7StateA' c7StateA'
      ⟨some ">", some ">", " ", 5, 6⟩ ⟨none, none, "", 6, 6⟩ "echo" (0, 4)
      rfl (Or.inl rfl) rfl rfl).1 (by decide) (by decide) (by decide),
   (claim_C7_redirect_errors c7StateB c7StateB c7StateB' c7StateB'
      ⟨some ">", some ">", " ", 5, 6⟩ ⟨some "&", some "&", " ", 6, 7⟩ "echo" (0, 4)
      rfl (Or.inl rfl) rfl rfl).2.1 c7StateB'' c7StateB''
      ⟨some "word", some "x", "", 7, 8⟩ rfl rfl rfl (by decide)⟩

/-! ## C3: dangling list terminators -/

theorem pipeline_eof_error (m : Nat) (st : PState) (tk : Tok)
    (hpeek : st.peek = some tk) (htype : tk.type = none) :
    ∃ e, run (m + 4) .pipeline st = .error e := by
  have hpk := peek_cached st tk hpeek
  have h1 : ¬ tk.type = some "!" := by rw [htype]; simp
  have h2 : ¬ (tk.type = some "(" ∨ tk.type = some "\x7b") := by rw [htype]; simp
  have h3 : ¬ tk.type = some "word" := by rw [htype]; simp
  -- the consume of 'number' in parse_command_part always fails at end-of-input
  have hcons : ∃ e, consume "number" st = .error e := by
    unfold consume
    rw [hpeek]
    try dsimp only []
    cases hnt : nextToken st with
    | error e => exact ⟨e, rfl⟩
    | ok r =>
        obtain ⟨r₁, st'⟩ := r
        refine ⟨⟨"consume: expected 'number' (got EOF)", tk.start⟩, ?_⟩
        try dsimp only []
        rw [if_neg (show ¬ tk.type = some "number" by rw [htype]; simp)]
        rw [htype]
        rfl
  obtain ⟨e, he⟩ := hcons
  have hpart : run (m + 1) .part st = .error e := by
    rw [run]
    try dsimp only []
    rw [hpeek]
    try dsimp only []
    rw [if_neg h3, he, error_bind]
  have hsimple : run (m + 2) .simple st = .error e := by
    rw [run]
    try dsimp only []
    rw [hpart, error_bind, error_bind]
  have hcommand : run (m + 3) .command st = .error e := by
    rw [run]
    try dsimp only []
    rw [hpk, ok_bind]
    try dsimp only []
    rw [if_neg h2]
    exact hsimple
  refine ⟨e, ?_⟩
  rw [run]
  try dsimp only []
  rw [hpk, ok_bind]
  try dsimp only []
  rw [if_neg h1, pure_bind_ok]
  try dsimp only []
  rw [hcommand, error_bind, error_bind]

/-- C3 (amended): in the `parse_list` loop, after consuming a list
operator `;`, `&`, `&&` or `||`, if the next token is `)` or `}` the
operator — *whichever of the four it is* — is kept as a trailing operator
node with no following pipeline, and the loop returns successfully; at
end-of-input the operator is kept only when it is `;` or `&`, while `&&`
and `||` go on to expect a pipeline and raise a parsing error.  The
claim's restriction of the dangling case to `;`/`&` before `)`/`}` is
wrong (see the counterexample: `"(a&&)"` parses).  -/
theorem claim_C3_dangling_terminator (f m : Nat) (st st₁ st₂ st₃ : PState)
    (parts : List Node) (op : String) (opTok tk2 opT : Tok)
    (hpk : peekTok st = .ok (opTok, st₁))
    (hop : opTok.type = some op)
    (hops : op = ";" ∨ op = "&" ∨ op = "&&" ∨ op = "||")
    (hcons : consume op st₁ = .ok st₂)
    (hpk2 : peekTok st₂ = .ok (tk2, st₃))
    (htk : st₃.tok = some opT) :
    (tk2.type = some ")" ∨ tk2.type = some "\x7d" →
       run (f + 1) (.listLoop parts) st =
         .ok (.parts (parts ++ [Node.operator op (opT.start, opT.endp)]), st₃)) ∧
    (tk2.type = none → (op = ";" ∨ op = "&") →
       run (f + 1) (.listLoop parts) st =
         .ok (.parts (parts ++ [Node.operator op (opT.start, opT.endp)]), st₃)) ∧
    (tk2.type = none → (op = "&&" ∨ op = "||") →
       ∃ e, run (m + 4 + 1) (.listLoop parts) st = .error e) := by
  refine ⟨?_, ?_, ?_⟩
  · intro hcl
    rw [run]
    try dsimp only []
    rw [hpk, ok_bind]
    try dsimp only []
    rw [hop]
    try dsimp only []
    rw [if_pos hops, hcons, ok_bind, hpk2, ok_bind]
    try dsimp only []
    rw [htk]
    try dsimp only []
    rw [if_pos (show tk2.type = some ")" ∨ tk2.type = some "\x7d" ∨
        (tk2.type = none ∧ (op = ";" ∨ op = "&")) by
      rcases hcl with h | h
      · exact Or.inl h
      · exact Or.inr (Or.inl h))]
  · intro hnone hsemi
    rw [run]
    try dsimp only []
    rw [hpk, ok_bind]
    try dsimp only []
    rw [hop]
    try dsimp only []
    rw [if_pos hops, hcons, ok_bind, hpk2, ok_bind]
    try dsimp only []
    rw [htk]
    try dsimp only []
    rw [if_pos (Or.inr (Or.inr ⟨hnone, hsemi⟩))]
  · intro hnone hand
    have hC : ¬ (tk2.type = some ")" ∨ tk2.type = some "\x7d" ∨
        (tk2.type = none ∧ (op = ";" ∨ op = "&"))) := by
      rw [hnone]
      rcases hand with rfl | rfl <;> simp
    have hpeek3 : st₃.peek = some tk2 := peekTok_peek st₂ st₃ tk2 hpk2
    obtain ⟨e, he⟩ := pipeline_eof_error m st₃ tk2 hpeek3 hnone
    refine ⟨e, ?_⟩
    rw [run]
    try dsimp only []
    rw [hpk, ok_bind]
    try dsimp only []
    rw [hop]
    try dsimp only []
    rw [if_pos hops, hcons, ok_bind, hpk2, ok_bind]
    try dsimp only []
    rw [htk]
    try dsimp only []
    rw [if_neg hC, he, error_bind, error_bind]

/-- C3 counterexample: `"(a&&)"` — the operator `&&` is directly followed
by `)`, and instead of raising a parsing error as the claim requires for
`&&`, the parse succeeds, keeping `&&` as a trailing operator node of the
inner list. -/
theorem claim_C3_dangling_terminator_counterexample :
    parseCommandLine "(a&&)" true 50 =
      .ok (Node.compound "("
        (Node.list [Node.command [Node.word "a" (1, 2)] (1, 2),
                    Node.operator "&&" (2, 4)] (1, 4))
        [] (0, 5)) ∧
    (∀ e : Perr, parseCommandLine "(a&&)" true 50 ≠ .error e) :=
  ⟨rfl, fun e h => by
    rw [show parseCommandLine "(a&&)" true 50 =
      .ok (Node.compound "("
        (Node.list [Node.command [Node.word "a" (1, 2)] (1, 2),
                    Node.operator "&&" (2, 4)] (1, 4))
        [] (0, 5)) from rfl] at h
    exact Except.noConfusion h⟩

/-- C3 witness: all three amended behaviours instantiated — `&&` before
`)` in `"(a&&)"` is kept dangling, `;` at end-of-input in `"a ;"` is kept
dangling, and `&&` at end-of-input in `"a &&"` raises. -/
theorem claim_C3_dangling_terminator_witness :
    run 11 (.listLoop [Node.command [Node.word "a" (1, 2)] (1, 2)]) c3StateA =
      .ok (.parts [Node.command [Node.word "a" (1, 2)] (1, 2),
                   Node.operator "&&" (2, 4)], c3StateA') ∧
    run 11 (.listLoop [Node.command [Node.word "a" (0, 1)] (0, 1)]) c3StateB =
      .ok (.parts [Node.command [Node.word "a" (0, 1)] (0, 1),
                   Node.operator ";" (2, 3)], c3StateB') ∧
    (∃ e, run 11 (.listLoop [Node.command [Node.word "a" (0, 1)] (0, 1)]) c3StateC =
      .error e) :=
  ⟨(claim_C3_dangling_terminator 10 6 c3StateA c3StateA c3StateA' c3StateA'
      [Node.command [Node.word "a" (1, 2)] (1, 2)] "&&"
      ⟨some "&&", some "&&", "", 2, 4⟩ ⟨some ")", some ")", "", 4, 5⟩
      ⟨some "&&", some "&&", "", 2, 4⟩
      rfl rfl (by decide) rfl rfl rfl).1 (Or.inl rfl),
   (claim_C3_dangling_terminator 10 6 c3StateB c3StateB c3StateB' c3StateB'
      [Node.command [Node.word "a" (0, 1)] (0, 1)] ";"
      ⟨some ";", some ";", " ", 2, 3⟩ ⟨none, none, "", 3, 3⟩
      ⟨some ";", some ";", " ", 2, 3⟩
      rfl rfl (by decide) rfl rfl rfl).2.1 rfl (Or.inl rfl),
   (claim_C3_dangling_terminator 10 6 c3StateC c3StateC c3StateC' c3StateC'
      [Node.command [Node.word "a" (0, 1)] (0, 1)] "&&"
      ⟨some "&&", some "&&", " ", 2, 4⟩ ⟨none, none, "", 4, 4⟩
      ⟨some "&&", some "&&", " ", 2, 4⟩
      rfl rfl (by decide) rfl rfl rfl).2.2 rfl (Or.inl rfl)⟩

/-! ## C4: redirections after compound groups -/

theorem redsStep_compound_assert (st st' : PState) (pk : Tok) (g : String) (i : Node)
    (rs0 : List Node) (p : Nat × Nat)
    (hpk : peekTok st = .ok (pk, st'))
    (hty : pk.type = some ">" ∨ pk.type = some ">>")
    (hpre : pk.preceding = "") :
    redsStep (some (Node.compound g i rs0 p)) st = .error ⟨"AssertionError", pk.start⟩ := by
  unfold redsStep
  rw [hpk, ok_bind]
  try dsimp only []
  rw [if_pos hty, if_pos hpre]
  try dsimp only []
  rw [error_bind]

/-- C4 (amended): a `(...)`/`{...}` group followed by redirections whose
operators each have preceding whitespace parses into a compound node that
owns exactly the parsed redirects, in order, with the inner list node
unchanged — but when a redirection operator directly follows the group
with *no* preceding whitespace, `parse_redirections`'s
`assert node.kind == 'word'` fails, so the parse raises (AssertionError)
instead of succeeding; the claim's "with or without whitespace" is wrong
(see the counterexample). -/
theorem claim_C4_compound_redirections (f : Nat) (st st₁ st₂ st₃ st₄ st₅ : PState)
    (tk opT clT : Tok) (inner : Node) (rs : List Node) (u : Bool)
    (hpk : peekTok st = .ok (tk, st₁))
    (htk : tk.type = some "(" ∨ tk.type = some "\x7b")
    (hcons : consume (if tk.type = some "(" then "(" else "\x7b") st₁ = .ok st₂)
    (hs : st₂.tok = some opT)
    (hlist : run f .list st₂ = .ok (.node inner, st₃))
    (hcons2 : consume (if tk.type = some "(" then ")" else "\x7d") st₃ = .ok st₄)
    (he : st₄.tok = some clT)
    (hreds : run f (.reds (some (Node.compound (if tk.type = some "(" then "(" else "\x7b")
        inner [] (opT.start, clT.endp))) []) st₄ = .ok (.redsRes rs u, st₅)) :
    (run (f + 1) .command st =
      .ok (.node (Node.compound (if tk.type = some "(" then "(" else "\x7b") inner rs
        (match rs.getLast? with
         | some r => (opT.start, r.pos.2)
         | none => (opT.start, clT.endp))), st₅)) ∧
    (∀ (st' st'' : PState) (pk : Tok) (g : String) (i : Node) (rs0 : List Node)
        (p : Nat × Nat),
        peekTok st' = .ok (pk, st'') →
        (pk.type = some ">" ∨ pk.type = some ">>") →
        pk.preceding = "" →
        redsStep (some (Node.compound g i rs0 p)) st' =
          .error ⟨"AssertionError", pk.start⟩) ∧
    parseCommandLine "(a) >b" true 50 =
      .ok (Node.compound "(" (Node.command [Node.word "a" (1, 2)] (1, 2))
        [Node.redirect 1 ">" (RTarget.file "b") (4, 6)] (0, 6)) ∧
    parseCommandLine "{a} >b" true 50 =
      .ok (Node.compound "\x7b" (Node.command [Node.word "a" (1, 2)] (1, 2))
        [Node.redirect 1 ">" (RTarget.file "b") (4, 6)] (0, 6)) := by
  refine ⟨?_, ?_, rfl, rfl⟩
  · rw [run]
    try dsimp only []
    rw [hpk, ok_bind]
    try dsimp only []
    rw [if_pos htk]
    try dsimp only []
    rw [hcons, ok_bind]
    try dsimp only []
    rw [hs]
    try dsimp only []
    rw [hlist, ok_bind]
    try dsimp only [expectNode]
    rw [ok_bind]
    try dsimp only []
    rw [hcons2, ok_bind]
    try dsimp only []
    rw [he]
    try dsimp only []
    rw [hreds, ok_bind]
    try dsimp only [expectReds]
    rw [ok_bind]
  · intro st' st'' pk g i rs0 p hpk' hty' hpre'
    exact redsStep_compound_assert st' st'' pk g i rs0 p hpk' hty' hpre'

/-- C4 counterexample: in `"(a)>b"` the `>` directly follows the group,
and the parse raises (the modelled AssertionError, at the operator's
offset 3) instead of succeeding, contradicting the claim's "with or
without whitespace before the first redirection operator". -/
theorem claim_C4_compound_redirections_counterexample :
    parseCommandLine "(a)>b" true 50 = .error ⟨"AssertionError", 3⟩ ∧
    (∀ n : Node, parseCommandLine "(a)>b" true 50 ≠ .ok n) :=
  ⟨rfl, fun n h => by
    rw [show parseCommandLine "(a)>b" true 50 = .error ⟨"AssertionError", 3⟩ from rfl] at h
    exact Except.noConfusion h⟩

/-- C4 witness: the `parse_command` step of `"(a) >b"` — the compound
owns the single redirect `> b` and the inner command `a` is untouched —
and the assertion failure of `"(a)>b"` at offset 3. -/
theorem claim_C4_compound_redirections_witness :
    run 21 .command c4StateA =
      .ok (.node (Node.compound "(" (Node.command [Node.word "a" (1, 2)] (1, 2))
        [Node.redirect 1 ">" (RTarget.file "b") (4, 6)] (0, 6)), c4StateA5) ∧
    redsStep (some (Node.compound "(" (Node.command [Node.word "a" (1, 2)] (1, 2)) []
        (0, 3))) c4StateB = .error ⟨"AssertionError", 3⟩ :=
  ⟨(claim_C4_compound_redirections 20 c4StateA c4StateA c4StateA2 c4StateA3 c4StateA4
      c4StateA5 ⟨some "(", some "(", "", 0, 1⟩ ⟨some "(", some "(", "", 0, 1⟩
      ⟨some ")", some ")", "", 2, 3⟩ (Node.command [Node.word "a" (1, 2)] (1, 2))
      [Node.redirect 1 ">" (RTarget.file "b") (4, 6)] false
      rfl (Or.inl rfl) rfl rfl rfl rfl rfl rfl).1,
   (claim_C4_compound_redirections 20 c4StateA c4StateA c4StateA2 c4StateA3 c4StateA4
      c4StateA5 ⟨some "(", some "(", "", 0, 1⟩ ⟨some "(", some "(", "", 0, 1⟩
      ⟨some ")", some ")", "", 2, 3⟩ (Node.command [Node.word "a" (1, 2)] (1, 2))
      [Node.redirect 1 ">" (RTarget.file "b") (4, 6)] false
      rfl (Or.inl rfl) rfl rfl rfl rfl rfl rfl).2.1 c4StateB c4StateB
      ⟨some ">", some ">", "", 3, 4⟩ "(" (Node.command [Node.word "a" (1, 2)] (1, 2))
      [] (0, 3) rfl (Or.inl rfl) rfl⟩

/-! ## C6: the structural printer mutates the AST -/

/-- C6: contrary to the claim, `dump` is *not* read-only.  `_format` binds
`d = node.__dict__` without copying (unlike `Node.__repr__`, which does
`dict(self.__dict__)`), so `d.pop('kind')` deletes the `kind` attribute
of every node it renders: dumping the word node built for `"ls"` returns
the expected text but leaves the node without its `kind` attribute
(`popKey "kind"` no longer finds it), and rendering the same node a
second time raises `KeyError: 'kind'` instead of yielding the same text.
The base `NodeVisitor` traversal is read-only, but the conjunction the
claim makes fails on `dump`. -/
theorem claim_C6_dump_mutates :
    dumpPy 10 wordNodePy = .ok ("WordNode(pos=(0, 2), word='ls')", dumpedWordNodePy) ∧
    dumpPy 10 dumpedWordNodePy = .error "KeyError: 'kind'" ∧
    popKey "kind" [("word", PyVal.pstr "ls"), ("pos", PyVal.ppos 0 2)] = none ∧
    (popKey "kind"
      [("kind", PyVal.pstr "word"), ("word", PyVal.pstr "ls"),
       ("pos", PyVal.ppos 0 2)]).isSome = true :=
  ⟨rfl, rfl, rfl, rfl⟩

/-! ## C8: tokenization terminates; empty-text tokens come only from quotes -/

theorem pbLen_cons (t : List Char) (rest : List (List Char)) :
    pbLen (t :: rest) = t.length + pbLen rest := rfl

theorem pbLen_append (a b : List (List Char)) :
    pbLen (a ++ b) = pbLen a + pbLen b := by
  induction a with
  | nil => simp [pbLen]
  | cons t rest ih => simp [pbLen] at ih ⊢; omega

theorem gvcLoop_pbLen (t : List Char) : ∀ last : Option Char,
    pbLen (gvcLoop last t) = (match last with | some _ => 1 | none => 0) + t.length := by
  induction t with
  | nil => intro last; cases last <;> simp [gvcLoop, pbLen]
  | cons c rest ih =>
      intro last
      cases last with
      | none =>
          by_cases hc : isSplitChar c = true
          · simp [gvcLoop, hc, ih (some c)]
            omega
          · simp [gvcLoop, hc, pbLen_cons, ih none]
            omega
      | some l =>
          by_cases hm : [l, c] ∈ permitted_tokens
          · simp [gvcLoop, hm, pbLen_cons, ih none]
            omega
          · simp [gvcLoop, hm, pbLen_cons, ih none]
            omega

theorem gvc_pbLen (t : List Char) : pbLen (get_valid_controls t) = t.length := by
  unfold get_valid_controls
  split
  · next h => simp [pbLen_cons, pbLen, h]
  · simpa using gvcLoop_pbLen t none

theorem gvc_ne_nil (t : List Char) : ∀ x ∈ get_valid_controls t, x ≠ [] := by
  intro x hx
  unfold get_valid_controls at hx
  split at hx
  · next h =>
      simp at hx
      subst hx
      intro hnil
      rw [hnil] at h
      simp at h
  · rcases gvcLoop_shape t none x hx with ⟨c, rfl⟩ | hp
    · simp
    · fin_cases hp <;> simp

theorem dropWhile_head_false {p : Char → Bool} {l t : List Char} {c : Char}
    (h : l.dropWhile p = c :: t) : p c = false := by
  induction l with
  | nil => simp [List.dropWhile] at h
  | cons a as ih =>
      rw [List.dropWhile_cons] at h
      split at h
      · exact ih h
      · next hp =>
          obtain ⟨rfl, rfl⟩ : a = c ∧ as = t := by simpa using h
          simpa using hp

theorem findIdx?_lt_length {p : Char → Bool} {l : List Char} {j : Nat}
    (h : l.findIdx? p = some j) : j < l.length := by
  induction l generalizing j with
  | nil => simp [List.findIdx?] at h
  | cons a as ih =>
      rw [List.findIdx?_cons] at h
      split at h
      · have hj : j = 0 := by
          injection h with h'
          omega
        subst hj
        simp
      · simp at h
        obtain ⟨j', hj', rfl⟩ := h
        have := ih hj'
        simp
        omega


theorem getToken_some_spec (lx0 lx : LexState) (t : List Char) (hinv : pbInv lx0)
    (h : getToken lx0 = .ok (some t, lx)) :
    t ≠ [] ∧ pbInv lx ∧
    2 * (lx.src.length - lx.pos) + pbLen lx.pbtokens + t.length ≤
      2 * (lx0.src.length - lx0.pos) + pbLen lx0.pbtokens := by
  unfold getToken at h
  cases hpb : lx0.pbtokens with
  | cons tk rest =>
      rw [hpb] at h
      try dsimp only [] at h
      rw [Except.ok.injEq, Prod.mk.injEq] at h
      obtain ⟨h1, h2⟩ := h
      obtain rfl : tk = t := Option.some.inj h1
      refine ⟨hinv _ (by rw [hpb]; exact List.mem_cons_self _ _), ?_, ?_⟩
      · intro x hx
        apply hinv
        rw [hpb]
        rw [← h2] at hx
        simp only [] at hx
        exact List.mem_cons_of_mem _ hx
      · rw [← h2]
        simp [pbLen_cons, hpb]
        omega
  | nil =>
      rw [hpb] at h
      try dsimp only [] at h
      have hlen : (lx0.src.drop lx0.pos).length = lx0.src.length - lx0.pos :=
        List.length_drop lx0.pos lx0.src
      have hsplit : ((lx0.src.drop lx0.pos).takeWhile isWs).length +
          ((lx0.src.drop lx0.pos).dropWhile isWs).length = lx0.src.length - lx0.pos := by
        rw [← hlen, ← List.length_append, List.takeWhile_append_dropWhile]
      cases hdrop : (lx0.src.drop lx0.pos).dropWhile isWs with
      | nil =>
          rw [hdrop] at h
          try dsimp only [] at h
          simp at h
      | cons c tail =>
          rw [hdrop] at h
          rw [hdrop] at hsplit
          simp only [List.length_cons] at hsplit
          try dsimp only [] at h
          by_cases hq : isQuote c = true
          · rw [if_pos hq] at h
            cases hfind : tail.findIdx? (fun d => d == c) with
            | none =>
                rw [hfind] at h
                exact Except.noConfusion h
            | some j =>
                rw [hfind] at h
                have hj : j < tail.length := findIdx?_lt_length hfind
                rw [Except.ok.injEq, Prod.mk.injEq] at h
                obtain ⟨h1, h2⟩ := h
                obtain rfl : c :: tail.take (j + 1) = t := Option.some.inj h1
                refine ⟨by simp, ?_, ?_⟩
                · intro x hx
                  rw [← h2] at hx
                  simp [hpb] at hx
                · rw [← h2]
                  simp [pbLen, hpb, List.length_take]
                  omega
          · rw [if_neg hq] at h
            by_cases hc : isCtrl c = true
            · rw [if_pos hc] at h
              try dsimp only [] at h
              have hrun : (c :: tail).takeWhile isCtrl = c :: tail.takeWhile isCtrl := by
                rw [List.takeWhile_cons, if_pos hc]
              rw [hrun] at h
              have hrl : (tail.takeWhile isCtrl).length ≤ tail.length :=
                List.Sublist.length_le (List.takeWhile_sublist isCtrl)
              rw [Except.ok.injEq, Prod.mk.injEq] at h
              obtain ⟨h1, h2⟩ := h
              obtain rfl : c :: tail.takeWhile isCtrl = t := Option.some.inj h1
              refine ⟨by simp, ?_, ?_⟩
              · intro x hx
                rw [← h2] at hx
                simp [hpb] at hx
              · rw [← h2]
                simp [pbLen, hpb, hrun]
                omega
            · rw [if_neg hc] at h
              try dsimp only [] at h
              have hcp : (fun d => !isWs d && !isCtrl d) c = true := by
                have hws : isWs c = false := dropWhile_head_false hdrop
                simp [hws, hc]
              have hrun : (c :: tail).takeWhile (fun d => !isWs d && !isCtrl d) =
                  c :: tail.takeWhile (fun d => !isWs d && !isCtrl d) := by
                rw [List.takeWhile_cons, if_pos hcp]
              rw [hrun] at h
              have hrl : (tail.takeWhile (fun d => !isWs d && !isCtrl d)).length ≤ tail.length :=
                List.Sublist.length_le (List.takeWhile_sublist _)
              rw [Except.ok.injEq, Prod.mk.injEq] at h
              obtain ⟨h1, h2⟩ := h
              obtain rfl : c :: tail.takeWhile (fun d => !isWs d && !isCtrl d) = t :=
                Option.some.inj h1
              refine ⟨by simp, ?_, ?_⟩
              · intro x hx
                rw [← h2] at hx
                simp [hpb] at hx
              · rw [← h2]
                simp [pbLen, hpb, hrun]
                omega

theorem getToken_none_spec (lx0 lx : LexState) (_hinv : pbInv lx0)
    (h : getToken lx0 = .ok (none, lx)) : pbInv lx := by
  unfold getToken at h
  cases hpb : lx0.pbtokens with
  | cons tk rest =>
      rw [hpb] at h
      try dsimp only [] at h
      simp at h
  | nil =>
      rw [hpb] at h
      try dsimp only [] at h
      cases hdrop : (lx0.src.drop lx0.pos).dropWhile isWs with
      | nil =>
          rw [hdrop] at h
          try dsimp only [] at h
          rw [Except.ok.injEq, Prod.mk.injEq] at h
          obtain ⟨_, h2⟩ := h
          intro x hx
          rw [← h2] at hx
          simp [hpb] at hx
      | cons c tail =>
          rw [hdrop] at h
          try dsimp only [] at h
          by_cases hq : isQuote c = true
          · rw [if_pos hq] at h
            cases hfind : tail.findIdx? (fun d => d == c) with
            | none =>
                rw [hfind] at h
                exact Except.noConfusion h
            | some j =>
                rw [hfind] at h
                simp at h
          · rw [if_neg hq] at h
            by_cases hc : isCtrl c = true
            · rw [if_pos hc] at h
              try dsimp only [] at h
              simp at h
            · rw [if_neg hc] at h
              try dsimp only [] at h
              simp at h


theorem nextToken_spec (st : PState) (r : Tok) (st' : PState)
    (hinv : pbInv st.lex) (h : nextToken st = .ok (r, st')) :
    pbInv st'.lex ∧
    (r.t ≠ none → lexMeasure st'.lex < lexMeasure st.lex) ∧
    (r.t = some "" → r.type = some "word") := by
  unfold nextToken at h
  cases hg : getToken st.lex with
  | error e => rw [hg] at h; simp at h
  | ok x =>
    obtain ⟨topt, lx⟩ := x
    rw [hg] at h
    cases topt with
    | none =>
        try dsimp only [] at h
        rw [Except.ok.injEq, Prod.mk.injEq] at h
        obtain ⟨h1, h2⟩ := h
        subst h2
        refine ⟨getToken_none_spec st.lex lx hinv hg, ?_, ?_⟩
        · intro hne
          rw [← h1] at hne
          simp at hne
        · intro he
          rw [← h1] at he
          simp at he
    | some t0 =>
        obtain ⟨ht0, hinvlx, hmeas⟩ := getToken_some_spec st.lex lx t0 hinv hg
        have ht0len : 1 ≤ t0.length := List.length_pos.mpr ht0
        try dsimp only [] at h
        by_cases hqt : isQuote lx.ttype = true
        · rw [if_pos hqt] at h
          try dsimp only [] at h
          rw [Except.ok.injEq, Prod.mk.injEq] at h
          obtain ⟨h1, h2⟩ := h
          subst h2
          refine ⟨hinvlx, ?_, ?_⟩
          · intro _
            simp only [lexMeasure] at hmeas ⊢
            omega
          · intro _
            rw [← h1]
        · rw [if_neg hqt] at h
          by_cases hat : lx.ttype = 'a'
          · rw [if_pos hat] at h
            try dsimp only [] at h
            cases hidx : st.source[st.lexpos]? with
            | none =>
                rw [hidx] at h
                try dsimp only [] at h
                simp at h
            | some ch =>
                rw [hidx] at h
                try dsimp only [] at h
                rw [Except.ok.injEq, Prod.mk.injEq] at h
                obtain ⟨h1, h2⟩ := h
                subst h2
                refine ⟨hinvlx, ?_, ?_⟩
                · intro _
                  simp only [lexMeasure] at hmeas ⊢
                  omega
                · intro he
                  rw [← h1] at he
                  simp only [] at he
                  have : t0 = [] := by
                    have hd := congrArg String.data (Option.some.inj he)
                    simpa using hd
                  exact absurd this ht0
          · rw [if_neg hat] at h
            by_cases hl : t0.length > 1
            · rw [if_pos hl] at h
              cases hgvc : get_valid_controls t0 with
              | nil =>
                  rw [hgvc] at h
                  try dsimp only [] at h
                  rw [Except.ok.injEq, Prod.mk.injEq] at h
                  obtain ⟨h1, h2⟩ := h
                  subst h2
                  refine ⟨hinvlx, ?_, ?_⟩
                  · intro _
                    simp only [lexMeasure] at hmeas ⊢
                    omega
                  · intro he
                    rw [← h1] at he
                    simp only [] at he
                    have : t0 = [] := by
                      have hd := congrArg String.data (Option.some.inj he)
                      simpa using hd
                    exact absurd this ht0
              | cons piece restPieces =>
                  rw [hgvc] at h
                  try dsimp only [] at h
                  rw [Except.ok.injEq, Prod.mk.injEq] at h
                  obtain ⟨h1, h2⟩ := h
                  subst h2
                  have hpiecene : piece ≠ [] :=
                    gvc_ne_nil t0 piece (by rw [hgvc]; exact List.mem_cons_self _ _)
                  have hplen : 1 ≤ piece.length := List.length_pos.mpr hpiecene
                  have hsum : piece.length + pbLen restPieces = t0.length := by
                    have := gvc_pbLen t0
                    rw [hgvc, pbLen_cons] at this
                    omega
                  refine ⟨?_, ?_, ?_⟩
                  · intro x hx
                    simp only [] at hx
                    rw [List.mem_append] at hx
                    rcases hx with hx | hx
                    · exact gvc_ne_nil t0 x (by rw [hgvc]; exact List.mem_cons_of_mem _ hx)
                    · exact hinvlx x hx
                  · intro _
                    simp only [lexMeasure, pbLen_append] at hmeas ⊢
                    omega
                  · intro he
                    rw [← h1] at he
                    simp only [] at he
                    have : piece = [] := by
                      have hd := congrArg String.data (Option.some.inj he)
                      simpa using hd
                    exact absurd this hpiecene
            · rw [if_neg hl] at h
              try dsimp only [] at h
              rw [Except.ok.injEq, Prod.mk.injEq] at h
              obtain ⟨h1, h2⟩ := h
              subst h2
              refine ⟨hinvlx, ?_, ?_⟩
              · intro _
                simp only [lexMeasure] at hmeas ⊢
                omega
              · intro he
                rw [← h1] at he
                simp only [] at he
                have : t0 = [] := by
                  have hd := congrArg String.data (Option.some.inj he)
                  simpa using hd
                exact absurd this ht0


theorem tokenizeFuel_total : ∀ (f : Nat) (st : PState) (acc : List Tok),
    pbInv st.lex → lexMeasure st.lex < f → (tokenizeFuel f st acc).isSome = true := by
  intro f
  induction f with
  | zero => intro st acc _ hm; omega
  | succ f ih =>
      intro st acc hinv hm
      simp only [tokenizeFuel]
      cases hnt : nextToken st with
      | error e => simp
      | ok x =>
          obtain ⟨r, st'⟩ := x
          by_cases hr : r.t = none
          · simp [hr]
          · obtain ⟨hinv', hmeas, _⟩ := nextToken_spec st r st' hinv hnt
            have hlt := hmeas hr
            simp only [hr, if_neg, ite_false]
            exact ih st' (acc ++ [r]) hinv' (by omega)

theorem tokenizeFuel_no_empty : ∀ (f : Nat) (st : PState) (acc toks : List Tok),
    pbInv st.lex →
    (∀ tk ∈ acc, tk.t = some "" → tk.type = some "word") →
    tokenizeFuel f st acc = some (.ok toks) →
    ∀ tk ∈ toks, tk.t = some "" → tk.type = some "word" := by
  intro f
  induction f with
  | zero => intro st acc toks _ _ h; simp [tokenizeFuel] at h
  | succ f ih =>
      intro st acc toks hinv hacc h
      simp only [tokenizeFuel] at h
      cases hnt : nextToken st with
      | error e => rw [hnt] at h; simp at h
      | ok x =>
          obtain ⟨r, st'⟩ := x
          rw [hnt] at h
          try dsimp only [] at h
          obtain ⟨hinv', _, hP⟩ := nextToken_spec st r st' hinv hnt
          by_cases hr : r.t = none
          · rw [if_pos hr] at h
            obtain rfl : acc = toks := by simpa using h
            exact hacc
          · rw [if_neg hr] at h
            refine ih st' (acc ++ [r]) toks hinv' ?_ h
            intro tk htk hempty
            rw [List.mem_append] at htk
            rcases htk with htk | htk
            · exact hacc tk htk hempty
            · obtain rfl : tk = r := by simpa using htk
              exact hP hempty


/-- C8 (amended): for every source string and POSIX flag, the tokenizer
loop terminates within `lexMeasure + 1` calls of `next_token` (each call
strictly decreases the lexer progress measure), so `tokenize_command_line`
returns a finite token sequence (or a lexical error); and every returned
token with *empty* text is a `word` token — these arise only from empty
quoted strings, as in `"''"` — while all other tokens have nonempty text.
The claim's "none of which has empty text" is wrong (see the
counterexample). -/
theorem claim_C8_tokenize (source : String) (posix : Bool) :
    (tokenizeFuel (lexMeasure (initState source posix).lex + 1)
        (initState source posix) []).isSome = true ∧
    (∀ toks, tokenizeCommandLine source posix = .ok toks →
       ∀ tk ∈ toks, tk.t = some "" → tk.type = some "word") ∧
    tokenizeCommandLine "''" true = .ok [⟨some "word", some "", "", 0, 2⟩] := by
  have hinv : pbInv (initState source posix).lex := by
    intro t ht
    simp [initState] at ht
  refine ⟨tokenizeFuel_total _ _ [] hinv (Nat.lt_succ_self _), ?_, rfl⟩
  intro toks htk
  unfold tokenizeCommandLine at htk
  cases hres : tokenizeFuel (lexMeasure (initState source posix).lex + 1)
      (initState source posix) [] with
  | none => rw [hres] at htk; simp at htk
  | some r =>
      rw [hres] at htk
      try dsimp only [] at htk
      subst htk
      exact tokenizeFuel_no_empty _ _ [] toks hinv (by intro tk htk2; simp at htk2) hres

/-- C8 counterexample: the source `"''"` (an empty single-quoted string)
tokenizes successfully into one token whose text is the empty string,
contradicting "none of which has empty text". -/
theorem claim_C8_tokenize_counterexample :
    tokenizeCommandLine "''" true = .ok [⟨some "word", some "", "", 0, 2⟩] ∧
    (⟨some "word", some "", "", 0, 2⟩ : Tok).t = some "" :=
  ⟨rfl, rfl⟩

/-- C8 witness: the amended statement instantiated on `"''"`: the single
(empty-text) token is a `word` token. -/
theorem claim_C8_tokenize_witness :
    (⟨some "word", some "", "", 0, 2⟩ : Tok).type = some "word" :=
  (claim_C8_tokenize "''" true).2.1 [⟨some "word", some "", "", 0, 2⟩] rfl
    ⟨some "word", some "", "", 0, 2⟩ (List.mem_singleton.mpr rfl) rfl


/-! ## C5: node spans versus child spans -/

theorem expectNode_ok (x : Except Perr (Res × PState)) (p : Node) (st' : PState)
    (h : (x >>= expectNode) = .ok (p, st')) : x = .ok (.node p, st') := by
  obtain ⟨⟨res1, stB⟩, hx, hexp⟩ := except_bind_ok _ _ _ h
  cases res1 with
  | node n =>
      unfold expectNode at hexp
      obtain ⟨rfl, rfl⟩ : n = p ∧ stB = st' := by simpa using hexp
      exact hx
  | parts ps => unfold expectNode at hexp; exact Except.noConfusion hexp
  | redsRes ps u => unfold expectNode at hexp; exact Except.noConfusion hexp

theorem expectParts_ok (x : Except Perr (Res × PState)) (ps : List Node) (st' : PState)
    (h : (x >>= expectParts) = .ok (ps, st')) : x = .ok (.parts ps, st') := by
  obtain ⟨⟨res1, stB⟩, hx, hexp⟩ := except_bind_ok _ _ _ h
  cases res1 with
  | parts qs =>
      unfold expectParts at hexp
      obtain ⟨rfl, rfl⟩ : qs = ps ∧ stB = st' := by simpa using hexp
      exact hx
  | node n => unfold expectParts at hexp; exact Except.noConfusion hexp
  | redsRes qs u => unfold expectParts at hexp; exact Except.noConfusion hexp

theorem expectReds_ok (x : Except Perr (Res × PState)) (ps : List Node) (u : Bool)
    (st' : PState) (h : (x >>= expectReds) = .ok ((ps, u), st')) :
    x = .ok (.redsRes ps u, st') := by
  obtain ⟨⟨res1, stB⟩, hx, hexp⟩ := except_bind_ok _ _ _ h
  cases res1 with
  | redsRes qs v =>
      unfold expectReds at hexp
      obtain ⟨⟨rfl, rfl⟩, rfl⟩ : (qs = ps ∧ v = u) ∧ stB = st' := by
        simpa [Prod.ext_iff] using hexp
      exact hx
  | node n => unfold expectReds at hexp; exact Except.noConfusion hexp
  | parts qs => unfold expectReds at hexp; exact Except.noConfusion hexp

theorem redsStep_spanInv (node : Option Node) (st st₂ : PState) (red : Node)
    (node2 : Option Node) (h : redsStep node st = .ok (some (red, node2), st₂)) :
    SpanInv red := by
  unfold redsStep at h
  obtain ⟨⟨pk, st₁⟩, hpk, h⟩ := except_bind_ok _ _ _ h
  try dsimp only [] at h
  by_cases hty : pk.type = some ">" ∨ pk.type = some ">>"
  · rw [if_pos hty] at h
    obtain ⟨⟨num, start, n2⟩, hd, h⟩ := except_bind_ok _ _ _ h
    try dsimp only [] at h
    obtain ⟨stC, hcons, h⟩ := except_bind_ok _ _ _ h
    try dsimp only [] at h
    obtain ⟨⟨tk2, stD⟩, hpk2, h⟩ := except_bind_ok _ _ _ h
    try dsimp only [] at h
    by_cases h2 : tk2.type = some "word" ∨ tk2.type = some "number"
    · rw [if_pos h2] at h
      obtain ⟨stE, hcons2, h⟩ := except_bind_ok _ _ _ h
      try dsimp only [] at h
      cases hl : stE.tok with
      | none => rw [hl] at h; exact Except.noConfusion h
      | some last =>
          rw [hl] at h
          simp only [Except.ok.injEq, Prod.mk.injEq, Option.some.injEq] at h
          obtain ⟨⟨hred, _⟩, _⟩ := h
          rw [← hred]
          exact SpanInv.redirect _ _ _ _
    · rw [if_neg h2] at h
      by_cases h3 : tk2.type = some "&"
      · rw [if_pos h3] at h
        obtain ⟨stE, hc3, h⟩ := except_bind_ok _ _ _ h
        try dsimp only [] at h
        obtain ⟨⟨tk3, stF⟩, hpk3, h⟩ := except_bind_ok _ _ _ h
        try dsimp only [] at h
        by_cases h4 : tk3.type = some "number"
        · rw [if_pos h4] at h
          obtain ⟨stG, hc4, h⟩ := except_bind_ok _ _ _ h
          try dsimp only [] at h
          cases hl : stG.tok with
          | none => rw [hl] at h; exact Except.noConfusion h
          | some last =>
              rw [hl] at h
              simp only [Except.ok.injEq, Prod.mk.injEq, Option.some.injEq] at h
              obtain ⟨⟨hred, _⟩, _⟩ := h
              rw [← hred]
              exact SpanInv.redirect _ _ _ _
        · rw [if_neg h4] at h; exact Except.noConfusion h
      · rw [if_neg h3] at h; exact Except.noConfusion h
  · rw [if_neg hty] at h
    simp only [Except.ok.injEq, Prod.mk.injEq] at h
    exact (Option.noConfusion h.1)


theorem run_spanInv : ∀ (f : Nat) (req : Req) (st : PState) (res : Res) (st' : PState),
    run f req st = .ok (res, st') → spanPost req res := by
  intro f
  induction f with
  | zero => intro req st res st' h; simp [run] at h
  | succ f ih =>
    intro req st res st' h
    cases req with
    | list =>
        simp only [run] at h
        obtain ⟨⟨p, stA⟩, hpip', h⟩ := except_bind_ok _ _ _ h
        have hp : SpanInv p := ih .pipeline st (.node p) stA (expectNode_ok _ _ _ hpip')
        try dsimp only [] at h
        obtain ⟨⟨ps, stB⟩, hloop', h⟩ := except_bind_ok _ _ _ h
        have hps : ∀ x ∈ ps, SpanInv x := by
          refine ih (.listLoop [p]) stA (.parts ps) stB (expectParts_ok _ _ _ hloop') ?_
          intro x hx
          simp at hx
          subst hx
          exact hp
        try dsimp only [] at h
        rcases ps with _ | ⟨q, _ | ⟨q', qs'⟩⟩
        · simp at h
        · rw [Except.ok.injEq, Prod.mk.injEq] at h
          obtain ⟨hres, _⟩ := h
          subst hres
          exact hps q (by simp)
        · rw [Except.ok.injEq, Prod.mk.injEq] at h
          obtain ⟨hres, _⟩ := h
          subst hres
          exact SpanInv.list q (q' :: qs') hps
    | listLoop parts0 =>
        simp only [run] at h
        obtain ⟨⟨opTok, stA⟩, hpk, h⟩ := except_bind_ok _ _ _ h
        try dsimp only [] at h
        cases hot : opTok.type with
        | none =>
            rw [hot] at h
            try dsimp only [] at h
            rw [Except.ok.injEq, Prod.mk.injEq] at h
            obtain ⟨hres, _⟩ := h
            subst hres
            exact fun hp => hp
        | some op =>
            rw [hot] at h
            try dsimp only [] at h
            by_cases hop : op = ";" ∨ op = "&" ∨ op = "&&" ∨ op = "||"
            · rw [if_pos hop] at h
              obtain ⟨stB, hcons, h⟩ := except_bind_ok _ _ _ h
              try dsimp only [] at h
              obtain ⟨⟨tk2, stC⟩, hpk2, h⟩ := except_bind_ok _ _ _ h
              try dsimp only [] at h
              cases htok : stC.tok with
              | none => rw [htok] at h; exact Except.noConfusion h
              | some opT =>
                  rw [htok] at h
                  try dsimp only [] at h
                  by_cases hcl : tk2.type = some ")" ∨ tk2.type = some "\x7d" ∨
                      (tk2.type = none ∧ (op = ";" ∨ op = "&"))
                  · rw [if_pos hcl] at h
                    rw [Except.ok.injEq, Prod.mk.injEq] at h
                    obtain ⟨hres, _⟩ := h
                    subst hres
                    intro hp x hx
                    rw [List.mem_append] at hx
                    rcases hx with hx | hx
                    · exact hp x hx
                    · obtain rfl : x = Node.operator op (opT.start, opT.endp) := by
                        simpa using hx
                      exact SpanInv.operator _ _
                  · rw [if_neg hcl] at h
                    obtain ⟨⟨part, stD⟩, hpip', h⟩ := except_bind_ok _ _ _ h
                    have hpart : SpanInv part :=
                      ih .pipeline stC (.node part) stD (expectNode_ok _ _ _ hpip')
                    have hrec := ih _ _ _ _ h
                    cases res with
                    | parts ps =>
                        intro hp x hx
                        refine hrec ?_ x hx
                        intro y hy
                        rw [List.mem_append] at hy
                        rcases hy with hy | hy
                        · exact hp y hy
                        · have hy2 : y = Node.operator op (opT.start, opT.endp) ∨ y = part := by
                            simpa using hy
                          rcases hy2 with rfl | rfl
                          · exact SpanInv.operator _ _
                          · exact hpart
                    | node n => trivial
                    | redsRes ps u => trivial
            · rw [if_neg hop] at h
              rw [Except.ok.injEq, Prod.mk.injEq] at h
              obtain ⟨hres, _⟩ := h
              subst hres
              exact fun hp => hp
    | pipeline =>
        simp only [run] at h
        obtain ⟨⟨tk, stA⟩, hpk, h⟩ := except_bind_ok _ _ _ h
        try dsimp only [] at h
        by_cases hbang : tk.type = some "!"
        · rw [if_pos hbang] at h
          obtain ⟨stC, hcons, h⟩ := except_bind_ok _ _ _ h
          try dsimp only [] at h
          cases htok : stC.tok with
          | none =>
              rw [htok] at h
              try dsimp only [] at h
              rw [error_bind] at h
              exact Except.noConfusion h
          | some nt =>
              rw [htok] at h
              try dsimp only [] at h
              rw [pure_bind_ok] at h
              try dsimp only [] at h
              obtain ⟨⟨cmd, stD⟩, hcmd', h⟩ := except_bind_ok _ _ _ h
              have hcmd : SpanInv cmd :=
                ih .command stC (.node cmd) stD (expectNode_ok _ _ _ hcmd')
              try dsimp only [] at h
              obtain ⟨⟨ps, stE⟩, hloop', h⟩ := except_bind_ok _ _ _ h
              have hps : ∀ x ∈ ps, SpanInv x := by
                refine ih (.pipelineLoop ([Node.negate (nt.start, nt.endp)] ++ [cmd])) stD
                  (.parts ps) stE (expectParts_ok _ _ _ hloop') ?_
                intro x hx
                have hx2 : x = Node.negate (nt.start, nt.endp) ∨ x = cmd := by
                  simpa using hx
                rcases hx2 with rfl | rfl
                · exact SpanInv.negate _
                · exact hcmd
              try dsimp only [] at h
              rcases ps with _ | ⟨q, _ | ⟨q2, qs2⟩⟩
              · simp at h
              · rw [Except.ok.injEq, Prod.mk.injEq] at h
                obtain ⟨hres, _⟩ := h
                subst hres
                exact hps q (by simp)
              · rw [Except.ok.injEq, Prod.mk.injEq] at h
                obtain ⟨hres, _⟩ := h
                subst hres
                exact SpanInv.pipeline q (q2 :: qs2) hps
        · rw [if_neg hbang] at h
          rw [pure_bind_ok] at h
          try dsimp only [] at h
          obtain ⟨⟨cmd, stD⟩, hcmd', h⟩ := except_bind_ok _ _ _ h
          have hcmd : SpanInv cmd :=
            ih .command stA (.node cmd) stD (expectNode_ok _ _ _ hcmd')
          try dsimp only [] at h
          obtain ⟨⟨ps, stE⟩, hloop', h⟩ := except_bind_ok _ _ _ h
          have hps : ∀ x ∈ ps, SpanInv x := by
            refine ih (.pipelineLoop ([] ++ [cmd])) stD (.parts ps) stE
              (expectParts_ok _ _ _ hloop') ?_
            intro x hx
            obtain rfl : x = cmd := by simpa using hx
            exact hcmd
          try dsimp only [] at h
          rcases ps with _ | ⟨q, _ | ⟨q2, qs2⟩⟩
          · simp at h
          · rw [Except.ok.injEq, Prod.mk.injEq] at h
            obtain ⟨hres, _⟩ := h
            subst hres
            exact hps q (by simp)
          · rw [Except.ok.injEq, Prod.mk.injEq] at h
            obtain ⟨hres, _⟩ := h
            subst hres
            exact SpanInv.pipeline q (q2 :: qs2) hps
    | pipelineLoop parts0 =>
        simp only [run] at h
        obtain ⟨⟨tk, stA⟩, hpk, h⟩ := except_bind_ok _ _ _ h
        try dsimp only [] at h
        by_cases hpipe : tk.type = some "|" ∨ tk.type = some "|&"
        · rw [if_pos hpipe] at h
          try dsimp only [] at h
          obtain ⟨stB, hcons, h⟩ := except_bind_ok _ _ _ h
          try dsimp only [] at h
          cases htok : stB.tok with
          | none => rw [htok] at h; exact Except.noConfusion h
          | some pT =>
              rw [htok] at h
              try dsimp only [] at h
              obtain ⟨⟨cmd, stC⟩, hcmd', h⟩ := except_bind_ok _ _ _ h
              have hcmd : SpanInv cmd :=
                ih .command stB (.node cmd) stC (expectNode_ok _ _ _ hcmd')
              have hrec := ih _ _ _ _ h
              cases res with
              | parts ps =>
                  intro hp x hx
                  refine hrec ?_ x hx
                  intro y hy
                  rw [List.mem_append] at hy
                  rcases hy with hy | hy
                  · exact hp y hy
                  · have hy2 : y = Node.pipe (if tk.type = some "|" then "|" else "|&")
                        (pT.start, pT.endp) ∨ y = cmd := by
                      simpa using hy
                    rcases hy2 with rfl | rfl
                    · exact SpanInv.pipe _ _
                    · exact hcmd
              | node n => trivial
              | redsRes ps u => trivial
        · rw [if_neg hpipe] at h
          rw [Except.ok.injEq, Prod.mk.injEq] at h
          obtain ⟨hres, _⟩ := h
          subst hres
          exact fun hp => hp
    | command =>
        simp only [run] at h
        obtain ⟨⟨tk, stA⟩, hpk, h⟩ := except_bind_ok _ _ _ h
        try dsimp only [] at h
        by_cases hgrp : tk.type = some "(" ∨ tk.type = some "\x7b"
        · rw [if_pos hgrp] at h
          try dsimp only [] at h
          obtain ⟨stB, hcons, h⟩ := except_bind_ok _ _ _ h
          try dsimp only [] at h
          obtain ⟨⟨inner, stC⟩, hlist', h⟩ := except_bind_ok _ _ _ h
          have hinner : SpanInv inner := ih .list stB (.node inner) stC (expectNode_ok _ _ _ hlist')
          try dsimp only [] at h
          obtain ⟨stD, hcons2, h⟩ := except_bind_ok _ _ _ h
          try dsimp only [] at h
          obtain ⟨⟨⟨rs, u⟩, stE⟩, hreds', h⟩ := except_bind_ok _ _ _ h
          have hrs : ∀ x ∈ rs, SpanInv x := by
            refine ih _ _ _ _ (expectReds_ok _ _ _ _ hreds') ?_
            intro x hx
            simp at hx
          try dsimp only [] at h
          rw [Except.ok.injEq, Prod.mk.injEq] at h
          obtain ⟨hres, _⟩ := h
          subst hres
          exact SpanInv.compound _ inner rs _ hinner hrs
        · rw [if_neg hgrp] at h
          have hrec := ih .simple stA res st' h
          cases res with
          | node n => exact hrec
          | parts ps => trivial
          | redsRes ps u => trivial
    | simple =>
        simp only [run] at h
        obtain ⟨⟨ps1, stA⟩, hpart', h⟩ := except_bind_ok _ _ _ h
        have hps1 : ∀ x ∈ ps1, SpanInv x := ih .part st (.parts ps1) stA (expectParts_ok _ _ _ hpart')
        try dsimp only [] at h
        obtain ⟨⟨ps, stB⟩, hloop', h⟩ := except_bind_ok _ _ _ h
        have hps : ∀ x ∈ ps, SpanInv x :=
          ih (.simpleLoop ps1) stA (.parts ps) stB (expectParts_ok _ _ _ hloop') hps1
        try dsimp only [] at h
        rcases ps with _ | ⟨q, qs⟩
        · simp at h
        · rw [Except.ok.injEq, Prod.mk.injEq] at h
          obtain ⟨hres, _⟩ := h
          subst hres
          exact SpanInv.command q qs hps
    | simpleLoop parts0 =>
        simp only [run] at h
        obtain ⟨⟨tk, stA⟩, hpk, h⟩ := except_bind_ok _ _ _ h
        try dsimp only [] at h
        by_cases hwn : tk.type = some "word" ∨ tk.type = some "number"
        · rw [if_pos hwn] at h
          obtain ⟨⟨more, stB⟩, hpart', h⟩ := except_bind_ok _ _ _ h
          have hmore : ∀ x ∈ more, SpanInv x :=
            ih .part stA (.parts more) stB (expectParts_ok _ _ _ hpart')
          have hrec := ih _ _ _ _ h
          cases res with
          | parts ps =>
              intro hp x hx
              refine hrec ?_ x hx
              intro y hy
              rw [List.mem_append] at hy
              rcases hy with hy | hy
              · exact hp y hy
              · exact hmore y hy
          | node n => trivial
          | redsRes ps u => trivial
        · rw [if_neg hwn] at h
          rw [Except.ok.injEq, Prod.mk.injEq] at h
          obtain ⟨hres, _⟩ := h
          subst hres
          exact fun hp => hp
    | part =>
        simp only [run] at h
        cases hpeek : st.peek with
        | none => rw [hpeek] at h; exact Except.noConfusion h
        | some pk =>
            rw [hpeek] at h
            try dsimp only [] at h
            obtain ⟨stB, hcons, h⟩ := except_bind_ok _ _ _ h
            try dsimp only [] at h
            obtain ⟨⟨⟨rs, used⟩, stC⟩, hreds', h⟩ := except_bind_ok _ _ _ h
            have hrs : ∀ x ∈ rs, SpanInv x := by
              refine ih _ _ _ _ (expectReds_ok _ _ _ _ hreds') ?_
              intro x hx
              simp at hx
            try dsimp only [] at h
            rw [Except.ok.injEq, Prod.mk.injEq] at h
            obtain ⟨hres, _⟩ := h
            subst hres
            cases used with
            | true =>
                intro x hx
                have hx' : x ∈ rs := by simpa using hx
                exact hrs x hx'
            | false =>
                intro x hx
                have hx' : x = Node.word (pk.t.getD "") (pk.start, pk.endp) ∨ x ∈ rs := by
                  simpa using hx
                rcases hx' with rfl | hx'
                · exact SpanInv.word _ _
                · exact hrs x hx'
    | reds node0 acc =>
        simp only [run] at h
        cases hs : redsStep node0 st with
        | error e => rw [hs] at h; exact Except.noConfusion h
        | ok x =>
            obtain ⟨step, stB⟩ := x
            rw [hs] at h
            cases step with
            | none =>
                try dsimp only [] at h
                rw [Except.ok.injEq, Prod.mk.injEq] at h
                obtain ⟨hres, _⟩ := h
                subst hres
                exact fun hp => hp
            | some rn =>
                obtain ⟨red, node2⟩ := rn
                try dsimp only [] at h
                have hred : SpanInv red := redsStep_spanInv node0 st stB red node2 hs
                have hrec := ih _ _ _ _ h
                cases res with
                | redsRes ps u =>
                    intro hp x hx
                    refine hrec ?_ x hx
                    intro y hy
                    rw [List.mem_append] at hy
                    rcases hy with hy | hy
                    · exact hp y hy
                    · obtain rfl : y = red := by simpa using hy
                      exact hred
                | node n => trivial
                | parts ps => trivial


/-- C5 (amended): in every AST returned by a successful parse, every
`list`, `pipeline` and `command` node spans exactly from its first
child's start offset to its last child's end offset (`SpanInv`).
`compound` nodes are the exception the claim missed: their spans start at
the opening bracket, not at the inner list (see the counterexample). -/
theorem claim_C5_spans (source : String) (posix : Bool) (fuel : Nat) (ast : Node)
    (h : parseCommandLine source posix fuel = .ok ast) : SpanInv ast := by
  unfold parseCommandLine parseCmd at h
  cases hpk : peekTok (initState source posix) with
  | error e => rw [hpk] at h; simp [Except.map] at h
  | ok x =>
      obtain ⟨tk0, st0⟩ := x
      rw [hpk] at h
      try dsimp only [] at h
      unfold parseList at h
      cases hpl : run fuel Req.list st0 >>= expectNode with
      | error e => rw [hpl] at h; simp [Except.map] at h
      | ok y =>
          obtain ⟨n, stF⟩ := y
          rw [hpl] at h
          obtain rfl : n = ast := by simpa [Except.map] using h
          exact run_spanInv fuel .list st0 (.node n) stF (expectNode_ok _ _ _ hpl)

/-- C5 counterexample: `"(a)"` parses to a compound whose span is
`(0, 3)` (the brackets included) while its only child, the inner command,
spans `(1, 2)` — so the claim's span rule (`nodeSpanClaim`), which it
asserts for compounds too, fails at that node. -/
theorem claim_C5_spans_counterexample :
    parseCommandLine "(a)" true 50 =
      .ok (Node.compound "(" (Node.command [Node.word "a" (1, 2)] (1, 2)) [] (0, 3)) ∧
    nodeSpanClaim
      (Node.compound "(" (Node.command [Node.word "a" (1, 2)] (1, 2)) [] (0, 3)) = false :=
  ⟨rfl, rfl⟩

/-- C5 witness: the amended span invariant holds of the AST of `"ls"`. -/
theorem claim_C5_spans_witness :
    SpanInv (Node.command [Node.word "ls" (0, 2)] (0, 2)) :=
  claim_C5_spans "ls" true 20 (Node.command [Node.word "ls" (0, 2)] (0, 2)) rfl


end Explainshell
